import Mathlib

/-!
Verification of the virtual-DOM reconciliation (morphdom) engine bundled in
this repository (marko 4.14.23 runtime, `dist/morphdom` and the supporting
virtual-node model).

The development shallowly embeds the relevant JavaScript into Lean:

* JS attribute values become the inductive `AttrValue` (with `nullish`
  covering both `null` and `undefined`; the two are never distinguished by
  the code paths modelled here, except where noted via `JSKey`).
* JS objects holding attribute maps become `AttrsObj`: an object identity
  (`oid`) plus an association list in insertion order, mirroring object
  key-iteration order.  The reference-equality test `oldAttrs === attrs`
  becomes equality of `oid`.
* DOM mutations are not performed; instead every modelled operation returns
  the ordered list of `Mut` values it would issue (`setAttribute`,
  `removeAttribute`, `insertBefore`, `removeChild`, `nodeValue` writes,
  plus uncounted DOM-property writes).
* Stateful side tables (`keysByDOMNode`, `vElementByDOMNode`,
  `detachedByDOMNode`, the per-component keyed-element table `v_`, and the
  per-pass `KeySequence` states) become explicit fields threaded through
  the functions.

Each definition is translated from the corresponding function in the
source bundle; the source location is cited in its doc comment.
-/

namespace Marko

/-- JS attribute values as they occur in virtual-element attribute maps:
strings, numbers, booleans, and `null`/`undefined` (collapsed into
`nullish`; the modelled code only ever tests them with `== null`, which
does not distinguish them). -/
inductive AttrValue where
  | nullish
  | bool (b : Bool)
  | str (s : String)
  | num (n : Int)
deriving DecidableEq, Repr

/-- Test from `VElement.aA_` (morphAttrs, lines 2852): `attrValue == null
|| attrValue === false` — the values that cause attribute removal. -/
def isRemovedValue : AttrValue → Bool
  | .nullish => true
  | .bool b => !b
  | _ => false

/-- Translation of `convertAttrValue` (VElement module, lines 2502-2510):
`true` becomes the empty string, other non-string values go through
JS `String(...)`.  (The JSON branch for objects is not modelled; object
attribute values do not occur in this model.)  String values are passed
through unchanged by the caller (`typeof attrValue !== "string"` guard). -/
def convertAttrValue : AttrValue → String
  | .bool true => ""
  | .bool false => "false"
  | .num n => toString n
  | .str s => s
  | .nullish => "undefined"

/-- An attribute-map object: `oid` models JavaScript object identity (used
for the `oldAttrs === attrs` constant-attributes short-circuit), `map` is
the key/value list in object-key iteration order. -/
structure AttrsObj where
  oid : Nat
  map : List (String × AttrValue)
deriving DecidableEq, Repr

def FLAG_IS_SVG : Nat := 1
def FLAG_IS_TEXTAREA : Nat := 2
def FLAG_SIMPLE_ATTRS : Nat := 4
def FLAG_PRESERVE : Nat := 8
def FLAG_CUSTOM_ELEMENT : Nat := 16

def NS_XLINK : String := "http://www.w3.org/1999/xlink"
def ATTR_XLINK_HREF : String := "xlink:href"
def ATTR_HREF : String := "href"

/-- Bit test on the `_f_` flags word. -/
def hasFlag (flags f : Nat) : Bool := flags &&& f != 0

/-- The data of a virtual element node (`VElement` constructor, lines
2552-2581): tag name `aB_`, key `aE_` (null or string), attribute object
`bA_`, constant-id token `aI_` (from `props.i`, `undefined` when absent),
and flags `_f_`.  The owner-component reference is not modelled: this
development models reconciliation inside a single component scope. -/
structure VEl where
  tag : String
  key : Option String
  attrs : AttrsObj
  constId : Option Int
  flags : Nat
deriving DecidableEq, Repr

/-- One DOM mutation issued by the engine.  `setA`/`removeA` carry the
namespace argument (`none` for plain `setAttribute`/`removeAttribute`).
`prop` records a write to a live DOM property (`className`, `id`,
`style.cssText`, custom-element assignment) — a property write, not an
attribute mutation.  `special` records the invocation of a
`specialElHandlers` entry (OPTION/INPUT/TEXTAREA/SELECT), which performs
DOM-property synchronisation. -/
inductive Mut where
  | insertB (nid : Nat)
  | removeC (nid : Nat)
  | setA (ns : Option String) (name : String) (value : String)
  | removeA (ns : Option String) (name : String)
  | nodeVal (nid : Nat) (value : String)
  | prop (name : String)
  | special (tag : String)
deriving DecidableEq, Repr

/-- The attribute a given new-map key is written to: `xlink:href` is
redirected to `href` in the xlink namespace (morphAttrs lines 2847-2850),
every other name maps to itself with no namespace. -/
def attrTarget (name : String) : Option String × String :=
  if name = ATTR_XLINK_HREF then (some NS_XLINK, ATTR_HREF) else (none, name)

/-- Default `VElement.bF_` (`removePreservedAttributes`, lines 2719-2725):
a no-op unless compiled components declare no-update attributes, which
none do in this bundle. -/
def removePreservedAttributes (attrs : List (String × AttrValue)) :
    List (String × AttrValue) := attrs

/-- The loop over the new attribute map in morphAttrs (lines 2843-2863):
null/undefined/false values issue `removeAttribute`; other values issue
`setAttribute` when strictly different from the old value looked up under
the (xlink-translated) name.  Absent old entries read as `undefined`,
which is strictly different from every retained value. -/
def attrNewStep (oldMap : List (String × AttrValue)) (p : String × AttrValue) : List Mut :=
  let t := attrTarget p.1
  if isRemovedValue p.2 then
    [Mut.removeA t.1 t.2]
  else if oldMap.lookup t.2 ≠ some p.2 then
    [Mut.setA t.1 t.2 (convertAttrValue p.2)]
  else []

def attrNewLoop (oldMap newMap : List (String × AttrValue)) : List Mut :=
  newMap.flatMap (attrNewStep oldMap)

/-- The stale-attribute removal loop in morphAttrs (lines 2875-2885): for
old keys absent from the new map (`!(attrName in attrs)`), remove the
attribute; `xlink:href` is removed via `removeAttributeNS(ATTR_XLINK_HREF,
ATTR_HREF)` — the source passes the literal string `"xlink:href"` as the
namespace argument. -/
def attrOldLoop (oldMap newMap : List (String × AttrValue)) : List Mut :=
  oldMap.flatMap (fun p =>
    if (newMap.lookup p.1).isNone then
      if p.1 = ATTR_XLINK_HREF then [Mut.removeA (some ATTR_XLINK_HREF) ATTR_HREF]
      else [Mut.removeA none p.1]
    else [])

/-- The `FLAG_SIMPLE_ATTRS` fast path of morphAttrs (lines 2819-2830):
class/id/style are synchronised through the live DOM properties
`className`, `id` and `style.cssText` — property writes, not attribute
mutations. -/
def simpleAttrsPath (oldMap newMap : List (String × AttrValue)) : List Mut :=
  (if oldMap.lookup "class" ≠ newMap.lookup "class" then [Mut.prop "className"] else []) ++
  (if oldMap.lookup "id" ≠ newMap.lookup "id" then [Mut.prop "id"] else []) ++
  (if oldMap.lookup "style" ≠ newMap.lookup "style" then [Mut.prop "style"] else [])

/-- The `FLAG_CUSTOM_ELEMENT` path of morphAttrs (line 2790): `assign`
copies every attribute onto the element as a plain property. -/
def assignProps (newMap : List (String × AttrValue)) : List Mut :=
  newMap.map (fun p => Mut.prop p.1)

/-- Translation of `VElement.aA_` (morphAttrs, lines 2778-2886) as the
list of mutations it issues.  The `vElementByDOMNode.set(fromEl, toEl)`
side effect is performed by the caller (`morphEl` model).  Order of
checks follows the source: custom-element assign; the
`oldAttrs === attrs` constant-map short-circuit (object identity, modelled
by `oid`); the simple-attrs fast path; then the general diff, with the
stale-attribute removal loop only when the target element's key is null. -/
def morphAttrs (vFromEl toEl : VEl) : List Mut :=
  let attrs := toEl.attrs
  if hasFlag toEl.flags FLAG_CUSTOM_ELEMENT then assignProps attrs.map
  else if vFromEl.attrs.oid = attrs.oid then []
  else
    let oldMap := removePreservedAttributes vFromEl.attrs.map
    if hasFlag toEl.flags FLAG_SIMPLE_ATTRS && hasFlag vFromEl.flags FLAG_SIMPLE_ATTRS then
      simpleAttrsPath oldMap attrs.map
    else
      let newMap := removePreservedAttributes attrs.map
      attrNewLoop oldMap newMap ++
        (if toEl.key = none then attrOldLoop oldMap newMap else [])

/-- The attribute (namespace, name) a mutation writes to, when it is an
attribute mutation. -/
def mutTarget : Mut → Option (Option String × String)
  | .setA ns name _ => some (ns, name)
  | .removeA ns name => some (ns, name)
  | _ => none

theorem lookup_some_mem {β : Type} {l : List (String × β)} {k : String} {v : β}
    (h : l.lookup k = some v) : (k, v) ∈ l := by
  induction l with
  | nil => simp [List.lookup] at h
  | cons p t ih =>
    obtain ⟨a, b⟩ := p
    rw [List.lookup] at h
    by_cases hk : k = a
    · subst hk
      simp only [beq_self_eq_true] at h
      injection h with h
      subst h
      exact List.mem_cons_self _ _
    · have hb : (k == a) = false := beq_false_of_ne hk
      rw [hb] at h
      exact List.mem_cons_of_mem _ (ih h)

theorem mem_lookup_isSome {β : Type} {l : List (String × β)} {k : String} {v : β}
    (h : (k, v) ∈ l) : (l.lookup k).isSome := by
  induction l with
  | nil => simp at h
  | cons p t ih =>
    obtain ⟨a, b⟩ := p
    rw [List.lookup]
    by_cases hk : k = a
    · subst hk; simp
    · have hb : (k == a) = false := beq_false_of_ne hk
      rw [hb]
      rcases List.mem_cons.mp h with heq | hmem
      · cases heq; exact absurd rfl hk
      · exact ih hmem

theorem mem_lookup_of_nodupKeys {β : Type} {l : List (String × β)} {k : String} {v : β}
    (nd : (l.map Prod.fst).Nodup) (h : (k, v) ∈ l) : l.lookup k = some v := by
  induction l with
  | nil => simp at h
  | cons p t ih =>
    obtain ⟨a, b⟩ := p
    rw [List.lookup]
    rcases List.mem_cons.mp h with heq | hmem
    · cases heq; simp
    · by_cases hk : k = a
      · subst hk
        exfalso
        have : k ∈ t.map Prod.fst := List.mem_map.mpr ⟨(k, v), hmem, rfl⟩
        exact (List.nodup_cons.mp nd).1 this
      · have hb : (k == a) = false := beq_false_of_ne hk
        rw [hb]
        exact ih (List.nodup_cons.mp nd).2 hmem

theorem attrTarget_inj {a b : String} (h : attrTarget a = attrTarget b) : a = b := by
  unfold attrTarget at h
  by_cases ha : a = ATTR_XLINK_HREF <;> by_cases hb : b = ATTR_XLINK_HREF
  · exact ha.trans hb.symm
  · rw [if_pos ha, if_neg hb] at h
    exact absurd (congrArg Prod.fst h) (by simp)
  · rw [if_neg ha, if_pos hb] at h
    exact absurd (congrArg Prod.fst h) (by simp)
  · rw [if_neg ha, if_neg hb] at h
    exact congrArg Prod.snd h

/-- The shape of every mutation issued by the new-attribute loop: it
comes from some entry of the new map and targets that entry's
(translated) attribute. -/
theorem attrNewLoop_shape {oldMap newMap : List (String × AttrValue)} {m : Mut}
    (h : m ∈ attrNewLoop oldMap newMap) :
    ∃ p ∈ newMap,
      (isRemovedValue p.2 = true ∧ m = Mut.removeA (attrTarget p.1).1 (attrTarget p.1).2) ∨
      (isRemovedValue p.2 = false ∧ oldMap.lookup (attrTarget p.1).2 ≠ some p.2 ∧
        m = Mut.setA (attrTarget p.1).1 (attrTarget p.1).2 (convertAttrValue p.2)) := by
  rcases List.mem_flatMap.mp h with ⟨p, hp, hmf⟩
  refine ⟨p, hp, ?_⟩
  unfold attrNewStep at hmf
  simp only [] at hmf
  split at hmf
  · next hr => exact Or.inl ⟨hr, List.mem_singleton.mp hmf⟩
  · next hr =>
    have hr2 : isRemovedValue p.2 = false := by
      simpa using hr
    split at hmf
    · next hne => exact Or.inr ⟨hr2, hne, List.mem_singleton.mp hmf⟩
    · simp at hmf

theorem attrNewStep_removed {oldMap : List (String × AttrValue)} {p : String × AttrValue}
    (hr : isRemovedValue p.2 = true) :
    attrNewStep oldMap p = [Mut.removeA (attrTarget p.1).1 (attrTarget p.1).2] := by
  unfold attrNewStep
  simp [hr]

theorem attrNewStep_changed {oldMap : List (String × AttrValue)} {p : String × AttrValue}
    (hr : isRemovedValue p.2 = false)
    (hne : oldMap.lookup (attrTarget p.1).2 ≠ some p.2) :
    attrNewStep oldMap p =
      [Mut.setA (attrTarget p.1).1 (attrTarget p.1).2 (convertAttrValue p.2)] := by
  unfold attrNewStep
  simp [hr, hne]

theorem mutTarget_assignProps {b : List (String × AttrValue)} {m : Mut}
    (h : m ∈ assignProps b) : mutTarget m = none := by
  rcases List.mem_map.mp h with ⟨p, _, rfl⟩
  rfl

theorem mutTarget_simpleAttrsPath {a b : List (String × AttrValue)} {m : Mut}
    (h : m ∈ simpleAttrsPath a b) : mutTarget m = none := by
  unfold simpleAttrsPath at h
  rcases List.mem_append.mp h with h1 | h2
  · rcases List.mem_append.mp h1 with h3 | h4
    · split at h3
      · rw [List.mem_singleton.mp h3]; rfl
      · simp at h3
    · split at h4
      · rw [List.mem_singleton.mp h4]; rfl
      · simp at h4
  · split at h2
    · rw [List.mem_singleton.mp h2]; rfl
    · simp at h2

/-- Case analysis over the four top-level paths of morphAttrs. -/
theorem morphAttrs_cases (vFrom toEl : VEl) :
    morphAttrs vFrom toEl = assignProps toEl.attrs.map ∨
    morphAttrs vFrom toEl = [] ∨
    morphAttrs vFrom toEl = simpleAttrsPath vFrom.attrs.map toEl.attrs.map ∨
    morphAttrs vFrom toEl =
      attrNewLoop vFrom.attrs.map toEl.attrs.map ++
        (if toEl.key = none then attrOldLoop vFrom.attrs.map toEl.attrs.map else []) := by
  unfold morphAttrs removePreservedAttributes
  simp only []
  split
  · exact Or.inl rfl
  · split
    · exact Or.inr (Or.inl rfl)
    · split
      · exact Or.inr (Or.inr (Or.inl rfl))
      · exact Or.inr (Or.inr (Or.inr rfl))

/-- Under the general-diff hypotheses, morphAttrs is the new-attribute
loop followed by the conditional stale-removal loop. -/
theorem morphAttrs_general (vFrom toEl : VEl)
    (hcust : hasFlag toEl.flags FLAG_CUSTOM_ELEMENT = false)
    (hsimple : (hasFlag toEl.flags FLAG_SIMPLE_ATTRS &&
        hasFlag vFrom.flags FLAG_SIMPLE_ATTRS) = false)
    (hoid : vFrom.attrs.oid ≠ toEl.attrs.oid) :
    morphAttrs vFrom toEl =
      attrNewLoop vFrom.attrs.map toEl.attrs.map ++
        (if toEl.key = none then attrOldLoop vFrom.attrs.map toEl.attrs.map else []) := by
  unfold morphAttrs removePreservedAttributes
  simp only [hcust, hsimple, Bool.false_eq_true, if_false, if_neg hoid]

/-- Example elements for the concrete attribute-diff-minimality case:
patching attrs from that of `vfC4` to that of `vtC4`. -/
def vfC4 : VEl :=
  { tag := "DIV", key := none,
    attrs := { oid := 0, map := [("class", AttrValue.str "a"), ("id", AttrValue.str "x")] },
    constId := none, flags := 0 }

def vtC4 : VEl :=
  { tag := "DIV", key := none,
    attrs := { oid := 1, map := [("class", AttrValue.str "b"), ("id", AttrValue.str "x")] },
    constId := none, flags := 0 }

/-- C4: attribute patch rules of morphAttrs.  In the general diff path
(no custom-element flag, not both simple-attrs, distinct attribute
objects, duplicate-free new attribute map): a new value of
null/undefined/false issues a removal of the (namespace-translated)
attribute; a changed retained value issues a set; an unchanged retained
value issues no mutation targeting that attribute; and the concrete
patch from class=a,id=x to class=b,id=x issues exactly the single
mutation setAttribute(class, b). -/
theorem c4_attribute_patch_rules (vFrom toEl : VEl)
    (hcust : hasFlag toEl.flags FLAG_CUSTOM_ELEMENT = false)
    (hsimple : (hasFlag toEl.flags FLAG_SIMPLE_ATTRS &&
        hasFlag vFrom.flags FLAG_SIMPLE_ATTRS) = false)
    (hoid : vFrom.attrs.oid ≠ toEl.attrs.oid)
    (hnd : (toEl.attrs.map.map Prod.fst).Nodup) :
    (∀ name v, toEl.attrs.map.lookup name = some v → isRemovedValue v = true →
      Mut.removeA (attrTarget name).1 (attrTarget name).2 ∈ morphAttrs vFrom toEl) ∧
    (∀ name v, toEl.attrs.map.lookup name = some v → isRemovedValue v = false →
      vFrom.attrs.map.lookup (attrTarget name).2 ≠ some v →
      Mut.setA (attrTarget name).1 (attrTarget name).2 (convertAttrValue v) ∈
        morphAttrs vFrom toEl) ∧
    (∀ name v, toEl.attrs.map.lookup name = some v → isRemovedValue v = false →
      vFrom.attrs.map.lookup (attrTarget name).2 = some v →
      ∀ m ∈ morphAttrs vFrom toEl, mutTarget m ≠ some (attrTarget name)) ∧
    morphAttrs vfC4 vtC4 = [Mut.setA none "class" "b"] := by
  have hm := morphAttrs_general vFrom toEl hcust hsimple hoid
  refine ⟨?_, ?_, ?_, by decide⟩
  · intro name v hl hrem
    rw [hm]
    refine List.mem_append_left _ (List.mem_flatMap.mpr ⟨(name, v), lookup_some_mem hl, ?_⟩)
    rw [attrNewStep_removed hrem]
    exact List.mem_singleton.mpr rfl
  · intro name v hl hrem hne
    rw [hm]
    refine List.mem_append_left _ (List.mem_flatMap.mpr ⟨(name, v), lookup_some_mem hl, ?_⟩)
    rw [attrNewStep_changed hrem hne]
    exact List.mem_singleton.mpr rfl
  · intro name v hl hrem hold m hmem htgt
    rw [hm] at hmem
    rcases List.mem_append.mp hmem with hnew | hrest
    · rcases attrNewLoop_shape hnew with ⟨p, hp, hcase⟩
      obtain ⟨pn, pv⟩ := p
      have htp : mutTarget m = some (attrTarget pn) := by
        rcases hcase with ⟨_, rfl⟩ | ⟨_, _, rfl⟩ <;> rfl
      obtain rfl : name = pn :=
        (attrTarget_inj (Option.some.inj (htp.symm.trans htgt))).symm
      have hlp : toEl.attrs.map.lookup name = some pv := mem_lookup_of_nodupKeys hnd hp
      obtain rfl : v = pv := (Option.some.inj (hlp.symm.trans hl)).symm
      rcases hcase with ⟨hr, _⟩ | ⟨_, hne, _⟩
      · rw [hrem] at hr; exact Bool.false_ne_true hr
      · exact hne hold
    · by_cases hk : toEl.key = none
      · rw [if_pos hk] at hrest
        rcases List.mem_flatMap.mp hrest with ⟨p, hp, hmf⟩
        obtain ⟨pn, pv⟩ := p
        split at hmf
        · next habs =>
          split at hmf
          · next hx =>
            rw [List.mem_singleton.mp hmf] at htgt
            have : attrTarget name = (some ATTR_XLINK_HREF, ATTR_HREF) :=
              (Option.some.inj htgt).symm
            unfold attrTarget at this
            split at this
            · have := congrArg Prod.fst this
              simp [NS_XLINK, ATTR_XLINK_HREF] at this
            · have := congrArg Prod.fst this
              simp at this
          · next hx =>
            rw [List.mem_singleton.mp hmf] at htgt
            have hts : attrTarget name = (none, pn) := (Option.some.inj htgt).symm
            have hpn : pn = name := by
              unfold attrTarget at hts
              split at hts
              · have := congrArg Prod.fst hts
                simp at this
              · exact (congrArg Prod.snd hts).symm
            subst hpn
            rw [hl] at habs
            simp at habs
        · simp at hmf
      · rw [if_neg hk] at hrest
        simp at hrest

/-- Witness for C4 at a concrete input. -/
theorem c4_attribute_patch_rules_witness :
    vfC4.attrs.oid ≠ vtC4.attrs.oid ∧
    Mut.setA none "class" "b" ∈ morphAttrs vfC4 vtC4 := by
  refine ⟨by decide, ?_⟩
  have h := (c4_attribute_patch_rules vfC4 vtC4 (by decide) (by decide) (by decide)
    (by decide)).2.1 "class" (AttrValue.str "b") (by decide) (by decide) (by decide)
  simpa [attrTarget, convertAttrValue, ATTR_XLINK_HREF] using h

/-- C9: the stale-attribute removal loop is gated on the target element
being unkeyed.  For a keyed target element: (1) no issued mutation
targets a plain (non-namespaced) attribute that is absent from the new
attribute map, and (2) every issued removeAttribute comes from an entry
of the new map whose value is null/undefined/false. -/
theorem c9_keyed_skips_stale_removal (vFrom toEl : VEl) (k : String)
    (hkey : toEl.key = some k) :
    (∀ name, (toEl.attrs.map.lookup name).isNone = true →
      ∀ m ∈ morphAttrs vFrom toEl, mutTarget m ≠ some (none, name)) ∧
    (∀ ns name, Mut.removeA ns name ∈ morphAttrs vFrom toEl →
      ∃ p ∈ toEl.attrs.map, isRemovedValue p.2 = true ∧ attrTarget p.1 = (ns, name)) := by
  have hcases := morphAttrs_cases vFrom toEl
  constructor
  · intro name hn m hm htgt
    rcases hcases with hc | hc | hc | hc
    · rw [hc] at hm
      rw [mutTarget_assignProps hm] at htgt
      exact Option.noConfusion htgt
    · rw [hc] at hm
      simp at hm
    · rw [hc] at hm
      rw [mutTarget_simpleAttrsPath hm] at htgt
      exact Option.noConfusion htgt
    · rw [hc] at hm
      rcases List.mem_append.mp hm with hnew | hrest
      · rcases attrNewLoop_shape hnew with ⟨p, hp, hcase⟩
        obtain ⟨pn, pv⟩ := p
        have htp : mutTarget m = some (attrTarget pn) := by
          rcases hcase with ⟨_, rfl⟩ | ⟨_, _, rfl⟩ <;> rfl
        have hts : attrTarget pn = (none, name) := Option.some.inj (htp.symm.trans htgt)
        have hpn : pn = name := by
          unfold attrTarget at hts
          split at hts
          · have := congrArg Prod.fst hts
            simp at this
          · exact congrArg Prod.snd hts
        subst hpn
        have := mem_lookup_isSome hp
        rw [Option.isNone_iff_eq_none] at hn
        rw [hn] at this
        simp at this
      · rw [hkey] at hrest
        rw [if_neg (by simp)] at hrest
        simp at hrest
  · intro ns name hm
    rcases hcases with hc | hc | hc | hc
    · rw [hc] at hm
      rcases List.mem_map.mp hm with ⟨p, _, heq⟩
      exact Mut.noConfusion heq
    · rw [hc] at hm
      simp at hm
    · rw [hc] at hm
      have := mutTarget_simpleAttrsPath hm
      simp [mutTarget] at this
    · rw [hc] at hm
      rcases List.mem_append.mp hm with hnew | hrest
      · rcases attrNewLoop_shape hnew with ⟨p, hp, hcase⟩
        rcases hcase with ⟨hr, heq⟩ | ⟨_, _, heq⟩
        · refine ⟨p, hp, hr, ?_⟩
          injection heq.symm with h1 h2
          rw [← h1, ← h2]
        · exact Mut.noConfusion heq.symm
      · rw [hkey] at hrest
        rw [if_neg (by simp)] at hrest
        simp at hrest

/-- Example elements for the keyed-skip case: the old map has attribute
old=y, the keyed new map does not mention it. -/
def vfC9 : VEl :=
  { tag := "DIV", key := none,
    attrs := { oid := 0, map := [("old", AttrValue.str "y"), ("class", AttrValue.str "a")] },
    constId := none, flags := 0 }

def vtC9 : VEl :=
  { tag := "DIV", key := some "@k",
    attrs := { oid := 1, map := [("class", AttrValue.str "b")] },
    constId := none, flags := 0 }

/-- Witness for C9 at a concrete input. -/
theorem c9_keyed_skips_stale_removal_witness :
    vtC9.key = some "@k" ∧
    (∀ m ∈ morphAttrs vfC9 vtC9, mutTarget m ≠ some (none, "old")) :=
  ⟨rfl, (c9_keyed_skips_stale_removal vfC9 vtC9 "@k" rfl).1 "old" (by decide)⟩

/-- State of a `KeySequence` (its `_B_` lookup object): the per-key
counters, as an association list. -/
abbrev KS := List (String × Nat)

/-- Object-property assignment `lookup[key] = n`: update the binding in
place, or add it. -/
def ksSet : KS → String → Nat → KS
  | [], k, n => [(k, n)]
  | p :: t, k, n => if p.1 = k then (k, n) :: t else p :: ksSet t k n

/-- Translation of `KeySequence.prototype._i_` (KeySequence module,
lines 1110-1126).  JS `var currentIndex = lookup[key]++` reads the old
value (undefined, hence NaN after increment, when absent) and stores
old+1; the `!currentIndex` branch (absent, NaN or 0) stores 1 and
returns the bare key; otherwise the key suffixed with an underscore and
the previous count is returned, the incremented count having been
stored by the `++`. -/
def keySequenceNextKey (m : KS) (key : String) : String × KS :=
  match m.lookup key with
  | none => (key, ksSet m key 1)
  | some n =>
    if n = 0 then (key, ksSet m key 1)
    else (key ++ "_" ++ toString n, ksSet m key (n + 1))

/-- The counter value stored for a key (0 when absent). -/
def ksCount (m : KS) (k : String) : Nat := (m.lookup k).getD 0

/-- Replay a whole sequence of key requests through one KeySequence,
collecting the resolved keys. -/
def ksRun : KS → List String → List String
  | _, [] => []
  | m, k :: t =>
    let r := keySequenceNextKey m k
    r.1 :: ksRun r.2 t

theorem ksSet_lookup_self (m : KS) (k : String) (n : Nat) :
    (ksSet m k n).lookup k = some n := by
  induction m with
  | nil => simp [ksSet, List.lookup]
  | cons p t ih =>
    unfold ksSet
    by_cases hp : p.1 = k
    · rw [if_pos hp]
      simp [List.lookup]
    · rw [if_neg hp]
      rw [List.lookup]
      have hb : (k == p.1) = false := beq_false_of_ne (fun h => hp h.symm)
      rw [hb]
      exact ih

theorem ksSet_lookup_other (m : KS) (k k2 : String) (n : Nat) (h : k2 ≠ k) :
    (ksSet m k n).lookup k2 = m.lookup k2 := by
  induction m with
  | nil =>
    simp [ksSet, List.lookup, beq_false_of_ne h]
  | cons p t ih =>
    unfold ksSet
    by_cases hp : p.1 = k
    · rw [if_pos hp]
      have hb2 : (k2 == p.1) = false := beq_false_of_ne (fun he => h (he.trans hp))
      simp [List.lookup, beq_false_of_ne h, hb2]
    · rw [if_neg hp]
      simp only [List.lookup]
      by_cases hq : k2 = p.1
      · simp [hq]
      · simp [beq_false_of_ne hq, ih]

theorem keySequenceNextKey_count (m : KS) (a k : String) :
    ksCount (keySequenceNextKey m a).2 k =
      if a = k then ksCount m a + 1 else ksCount m k := by
  unfold keySequenceNextKey ksCount
  by_cases hak : a = k
  · subst hak
    cases hm : m.lookup a with
    | none => simp [hm, ksSet_lookup_self]
    | some n =>
      by_cases hn : n = 0
      · simp [hm, hn, ksSet_lookup_self]
      · simp [hm, hn, ksSet_lookup_self]
  · have hne : k ≠ a := fun h => hak h.symm
    cases hm : m.lookup a with
    | none => simp [hm, ksSet_lookup_other m a k 1 hne, hak]
    | some n =>
      by_cases hn : n = 0
      · simp [hm, hn, ksSet_lookup_other m a k 1 hne, hak]
      · simp [hm, hn, ksSet_lookup_other m a k (n + 1) hne, hak]

theorem keySequenceNextKey_out (m : KS) (k : String) :
    (keySequenceNextKey m k).1 =
      if ksCount m k = 0 then k else k ++ "_" ++ toString (ksCount m k) := by
  unfold keySequenceNextKey ksCount
  cases hm : m.lookup k with
  | none => simp [hm]
  | some n =>
    by_cases hn : n = 0
    · simp [hm, hn]
    · simp [hm, hn]

theorem ksRun_getElem (m : KS) (reqs : List String) (i : Nat) (k : String)
    (h : reqs[i]? = some k) :
    (ksRun m reqs)[i]? = some
      (if ksCount m k + (reqs.take i).count k = 0 then k
       else k ++ "_" ++ toString (ksCount m k + (reqs.take i).count k)) := by
  induction reqs generalizing m i with
  | nil => simp at h
  | cons a t ih =>
    cases i with
    | zero =>
      have hak : a = k := by simpa using h
      subst hak
      unfold ksRun
      simp only [List.getElem?_cons_zero, List.take_zero, List.count_nil, Nat.add_zero]
      rw [keySequenceNextKey_out]
    | succ j =>
      have ht : t[j]? = some k := by simpa using h
      unfold ksRun
      simp only [List.getElem?_cons_succ]
      rw [ih (keySequenceNextKey m a).2 j ht]
      rw [keySequenceNextKey_count]
      have htake : ((a :: t).take (j + 1)).count k =
          (if a = k then 1 else 0) + (t.take j).count k := by
        rw [List.take_succ_cons, List.count_cons]
        by_cases hak : a = k
        · simp [hak, Nat.add_comm]
        · simp [hak, fun h => hak (beq_iff_eq.mp h)]
      rw [htake]
      by_cases hak : a = k
      · subst hak
        simp [Nat.add_assoc, Nat.add_comm 1]
      · simp [hak]

/-- The key-sequence state after replaying a list of requests. -/
def ksRunState : KS → List String → KS
  | m, [] => m
  | m, k :: t => ksRunState (keySequenceNextKey m k).2 t

theorem ksRun_length (m : KS) (xs : List String) : (ksRun m xs).length = xs.length := by
  induction xs generalizing m with
  | nil => rfl
  | cons a t ih =>
    unfold ksRun
    simp [ih]

theorem ksRun_append (m : KS) (xs ys : List String) :
    ksRun m (xs ++ ys) = ksRun m xs ++ ksRun (ksRunState m xs) ys := by
  induction xs generalizing m with
  | nil => simp [ksRun, ksRunState]
  | cons a t ih =>
    show ksRun m (a :: (t ++ ys)) = ksRun m (a :: t) ++ ksRun (ksRunState m (a :: t)) ys
    rw [ksRun, ksRun, ksRunState]
    simp only [List.cons_append]
    rw [ih]

/-- C6: repeated-key disambiguation.  Replaying any sequence of key
requests through one per-scope KeySequence from its initial empty state,
the request at position i for key k resolves to the bare key when it is
the first occurrence of k, and to k followed by an underscore and n-1
when it is the n-th occurrence (n-1 = number of earlier requests for k);
moreover the resolution at position i depends only on the requests up to
and including position i. -/
theorem c6_key_sequence_disambiguation (reqs : List String) (i : Nat) (k : String)
    (h : reqs[i]? = some k) :
    ((ksRun [] reqs)[i]? = some
      (if (reqs.take i).count k = 0 then k
       else k ++ "_" ++ toString ((reqs.take i).count k))) ∧
    (∀ reqs2 : List String, reqs2.take (i + 1) = reqs.take (i + 1) →
      (ksRun [] reqs2)[i]? = (ksRun [] reqs)[i]?) := by
  constructor
  · have := ksRun_getElem [] reqs i k h
    simpa [ksCount, List.lookup] using this
  · intro reqs2 htake
    have hsplit : ∀ l : List String, (ksRun [] l)[i]? = (ksRun [] (l.take (i + 1)))[i]? := by
      intro l
      by_cases hl : i + 1 ≤ l.length
      · conv_lhs => rw [← List.take_append_drop (i + 1) l]
        rw [ksRun_append]
        refine List.getElem?_append_left ?_
        rw [ksRun_length, List.length_take]
        omega
      · rw [List.take_of_length_le (by omega)]
    rw [hsplit reqs2, hsplit reqs, htake]

/-- Witness for C6 at a concrete input: the fourth request, which is the
third occurrence of the key, resolves with suffix 2. -/
theorem c6_key_sequence_disambiguation_witness :
    (["k", "k", "j", "k"] : List String)[3]? = some "k" ∧
    (ksRun [] ["k", "k", "j", "k"])[3]? = some "k_2" := by
  refine ⟨by decide, ?_⟩
  have h := (c6_key_sequence_disambiguation ["k", "k", "j", "k"] 3 "k" (by decide)).1
  exact h.trans (by decide)

/-- A child being appended to a virtual node under construction: either
a text node (`bJ_` true) carrying its value, or any other node kind. -/
inductive BuilderChild where
  | textChild (value : String)
  | nodeChild (id : Nat)
deriving DecidableEq, Repr

def isTextChild : BuilderChild → Bool
  | .textChild _ => true
  | .nodeChild _ => false

/-- The construction-time fields of a virtual node relevant to child
appending (`VNode.prototype.bv_`, lines 2322-2329): declared final
child count `bG_` (-1 for text/comment nodes, null for
component/fragment nodes, hence `Option Int`), running child count
`bH_`, the value-capturing flag `bD_` (set for textarea elements), the
accumulated `bC_` value, and the ordered child list built through the
`bz_`/`bI_`/`bx_` links. -/
structure VNodeBuilder where
  finalChildCount : Option Int
  childCount : Nat
  valueCapturing : Bool
  value : Option String
  children : List BuilderChild
deriving DecidableEq, Repr

/-- Translation of `VNode.prototype.bn_` (appendChild, lines 2366-2391):
the running child count is incremented first; for a value-capturing
node a text child is folded into `bC_` and any other child raises
`TypeError`; otherwise the child is linked at the end of the child
list.  No comparison with the declared final child count `bG_` occurs
anywhere in the function. -/
def appendChild (n : VNodeBuilder) (c : BuilderChild) : Except Unit VNodeBuilder :=
  let m := { n with childCount := n.childCount + 1 }
  if m.valueCapturing then
    match c with
    | .textChild v => Except.ok { m with value := some ((m.value.getD "") ++ v) }
    | .nodeChild _ => Except.error ()
  else Except.ok { m with children := m.children ++ [c] }

/-- Example node for C8: declared child count 0, no children appended
yet. -/
def nC8 : VNodeBuilder :=
  { finalChildCount := some 0, childCount := 0, valueCapturing := false,
    value := none, children := [] }

/-- Counterexample for C8: it is not the case that appending a child to
a node whose running child count has already reached its declared
finite child count fails.  At the concrete node `nC8` (declared count
0, running count 0) appending a child succeeds. -/
theorem c8_counterexample :
    ¬ (∀ (n : VNodeBuilder) (c : BuilderChild) (f : Int),
        n.finalChildCount = some f → (n.childCount : Int) ≥ f →
        (appendChild n c).isOk = false) := by
  intro h
  exact absurd (h nC8 (BuilderChild.nodeChild 1) 0 rfl (by decide)) (by decide)

/-- C8 (amended): appendChild performs no declared-count check.  Its
success is independent of the declared final child count, and it fails
exactly when the node is value-capturing (textarea) and the child is
not a text node; on success the running child count is incremented. -/
theorem c8_append_ignores_declared_count (n : VNodeBuilder) (c : BuilderChild) :
    ((appendChild n c).isOk = false ↔
      n.valueCapturing = true ∧ isTextChild c = false) ∧
    (∀ f : Option Int,
      (appendChild { n with finalChildCount := f } c).isOk = (appendChild n c).isOk) ∧
    ((appendChild n c).map (fun m => m.childCount) =
      if n.valueCapturing && !(isTextChild c) then Except.error ()
      else Except.ok (n.childCount + 1)) := by
  unfold appendChild isTextChild
  cases hv : n.valueCapturing <;> cases c <;> simp [Except.isOk, Except.toBool, Except.map]

/-- Lifecycle/teardown state of a component instance relevant to
`destroy` (Component module, lines 3832-3877): the destroyed flag
`q_`.  The key-to-node map and root nodes are owned elsewhere and not
needed for the destroy-once property. -/
structure CompState where
  destroyed : Bool
deriving DecidableEq, Repr

/-- Translation of `Component.prototype.destroy` together with the
`y_` teardown it calls (lines 3832-3877): when the destroyed flag `q_`
is set the call returns immediately with no event; otherwise `y_`
emits the single `destroy` lifecycle event and sets the flag (the
remaining code then removes the root nodes from the DOM). -/
def componentDestroy (c : CompState) : CompState × List String :=
  if c.destroyed then (c, [])
  else ({ destroyed := true }, ["destroy"])

/-- Iterated calls to destroy, collecting all emitted lifecycle
events. -/
def destroyRepeat : CompState → Nat → List String
  | _, 0 => []
  | c, Nat.succ n =>
    let r := componentDestroy c
    r.2 ++ destroyRepeat r.1 n

theorem destroyRepeat_destroyed (n : Nat) :
    destroyRepeat { destroyed := true } n = [] := by
  induction n with
  | zero => rfl
  | succ m ih =>
    unfold destroyRepeat componentDestroy
    simpa using ih

/-- One remaining real child in the tail-cleanup loop: a component root
(recognised through `componentByDOMNode`) or a plain node. -/
inductive TailChild where
  | comp (cid : Nat)
  | node (nid : Nat) (isElem : Bool)
deriving DecidableEq, Repr

inductive TailEvent where
  | destroyedComp (cid : Nat)
  | detached (nid : Nat)
deriving DecidableEq, Repr

/-- Translation of the tail-cleanup loop of morphChildren (lines
3496-3523): once every target child is consumed, each remaining real
child that is a component root is destroyed unless its component id is
in the per-render rendered-components map `_z_` of the global
components context; every other remaining child is passed to
detachNode.  (The reference-component computation for the key-index
cleanup does not affect which children are detached or destroyed.) -/
def tailCleanupEvents (stillPresent : List Nat) (leftovers : List TailChild) :
    List TailEvent :=
  leftovers.flatMap (fun c =>
    match c with
    | .comp cid => if cid ∈ stillPresent then [] else [TailEvent.destroyedComp cid]
    | .node nid _ => [TailEvent.detached nid])

/-- C3: tail cleanup and destroy-on-removal.  Every non-component
leftover child is detached; a leftover component is destroyed exactly
when its id is absent from the per-render still-present map; and the
destroy lifecycle event fires exactly once over any positive number of
destroy() calls on a live component (repeated calls are no-ops). -/
theorem c3_tail_cleanup_and_destroy_once
    (stillPresent : List Nat) (leftovers : List TailChild) :
    (∀ nid b, TailChild.node nid b ∈ leftovers →
      TailEvent.detached nid ∈ tailCleanupEvents stillPresent leftovers) ∧
    (∀ cid, TailChild.comp cid ∈ leftovers →
      (TailEvent.destroyedComp cid ∈ tailCleanupEvents stillPresent leftovers ↔
        cid ∉ stillPresent)) ∧
    (∀ n : Nat, 1 ≤ n → destroyRepeat { destroyed := false } n = ["destroy"]) := by
  refine ⟨?_, ?_, ?_⟩
  · intro nid b hmem
    exact List.mem_flatMap.mpr ⟨TailChild.node nid b, hmem, by simp⟩
  · intro cid hmem
    constructor
    · intro hev hin
      rcases List.mem_flatMap.mp hev with ⟨c, _, hmf⟩
      cases c with
      | comp cid2 =>
        have hmf2 : TailEvent.destroyedComp cid ∈
            (if cid2 ∈ stillPresent then ([] : List TailEvent)
             else [TailEvent.destroyedComp cid2]) := hmf
        by_cases h2 : cid2 ∈ stillPresent
        · rw [if_pos h2] at hmf2
          simp at hmf2
        · rw [if_neg h2] at hmf2
          have : cid2 = cid := by
            have := List.mem_singleton.mp hmf2
            exact TailEvent.destroyedComp.inj this.symm
          exact h2 (this ▸ hin)
      | node nid b =>
        have := List.mem_singleton.mp hmf
        exact TailEvent.noConfusion this.symm
    · intro hout
      exact List.mem_flatMap.mpr ⟨TailChild.comp cid, hmem, by simp [hout]⟩
  · intro n hn
    obtain ⟨m, rfl⟩ : ∃ m, n = m + 1 := ⟨n - 1, by omega⟩
    unfold destroyRepeat componentDestroy
    simpa using destroyRepeat_destroyed m

/-- Witness for C3 at a concrete input: leftovers holding one plain
node and two components, one of which is still present in the new
tree. -/
theorem c3_tail_cleanup_and_destroy_once_witness :
    (TailEvent.detached 5 ∈ tailCleanupEvents [8] [TailChild.node 5 true,
      TailChild.comp 7, TailChild.comp 8]) ∧
    (TailEvent.destroyedComp 7 ∈ tailCleanupEvents [8] [TailChild.node 5 true,
      TailChild.comp 7, TailChild.comp 8]) ∧
    destroyRepeat { destroyed := false } 3 = ["destroy"] := by
  have h := c3_tail_cleanup_and_destroy_once [8]
    [TailChild.node 5 true, TailChild.comp 7, TailChild.comp 8]
  exact ⟨h.1 5 true (by decide), (h.2.1 7 (by decide)).mpr (by decide),
    h.2.2 3 (by decide)⟩

/-!
The whole-pass embedding of morphdom (lines 3116-3575), scoped to the
reconciliation of element / text / comment trees inside a single
component scope: component placeholder targets, fragment nodes and the
browser-rerender (hydration) branches are outside this model
(`isRerenderInBrowser` is false, so those branches are dead), every
modelled real element carries its virtual-element association
(`vElementByDOMNode`), and the keyed-element table of the scope refers
to nodes of the sibling lists being morphed (cross-parent transclusion
moves are outside the model: a table entry whose node is not found
behaves as a missing entry).  Real trees are forests of `RNode`; the
side tables and the per-pass KeySequence are threaded in `MState`. -/

/-- A JS value used in the `===` key comparisons of morphChildren:
`undefined` (a node with no key slot: text/comment nodes, nodes with no
stored key), `null` (a VElement whose `aE_` is null), or a string. -/
inductive JSKey where
  | undef
  | jsnull
  | str (s : String)
deriving DecidableEq, Repr

/-- JS truthiness of a key slot that is either null or a string. -/
def jsTruthyKey : Option String → Bool
  | none => false
  | some s => !s.isEmpty

/-- JS truthiness of a `JSKey`. -/
def jsKeyTruthy : JSKey → Bool
  | JSKey.undef => false
  | .jsnull => false
  | .str s => !s.isEmpty

/-- The string content of a truthy `JSKey`. -/
def jsKeyStr : JSKey → String
  | .str s => s
  | _ => ""

/-- A target virtual node (element, text or comment). -/
inductive VNode where
  | el (v : VEl) (children : List VNode)
  | txt (s : String)
  | cmt (s : String)

/-- A real node: an element carries its id, the virtual element it was
last reconciled against (`vElementByDOMNode`), its stored key
(`keysByDOMNode`, set at insertion time) and its children; text and
comment nodes carry their id and `nodeValue`. -/
inductive RNode where
  | el (nid : Nat) (assoc : VEl) (storedKey : Option String) (children : List RNode)
  | txt (nid : Nat) (s : String)
  | cmt (nid : Nat) (s : String)

def RNode.nid : RNode → Nat
  | .el i _ _ _ => i
  | .txt i _ => i
  | .cmt i _ => i

/-- The value `keysByDOMNode.get(node)` compares as: stored key string
or `undefined`. -/
def storedKeyJS : RNode → JSKey
  | .el _ _ (some s) _ => .str s
  | _ => JSKey.undef

/-- The value `node.aE_` of a target virtual node compares as:
`undefined` for text/comment nodes (no such field), `null` or the
string for elements. -/
def rawKeyJS : VNode → JSKey
  | .el v _ => match v.key with
    | none => .jsnull
    | some s => .str s
  | _ => JSKey.undef

/-- The key argument passed for a target node (its `aE_`, null for
text/comment). -/
def vKeyOf : VNode → Option String
  | .el v _ => v.key
  | _ => none

/-- The raw key of the next target sibling (`toNextSibling.aE_`),
`undefined` when there is no next target. -/
def rawKeyJSHead : List VNode → JSKey
  | [] => JSKey.undef
  | t :: _ => rawKeyJS t

/-- The per-pass reconciliation state: the scope's KeySequence state
(`keySequences[id]._B_`), the scope's keyed-element table (`v_`,
resolved key to real node id; it persists across passes), the set of
node ids currently marked detached (`detachedByDOMNode`), the
`detachedNodes` queue in push order, a fresh-id counter for
materialised nodes, and the value of the `curFromNodeKey` variable of
morphChildren (whose stale value is observable in the unkeyed scan). -/
structure MState where
  ks : KS
  keyed : List (String × Nat)
  marks : List Nat
  queue : List Nat
  nextId : Nat
  lastFromKey : JSKey
deriving DecidableEq, Repr

/-- The per-render global-context maps consulted during a pass:
`_x_` (preserved keys) and `_y_` (preserved-body keys). -/
structure MCtx where
  preservedKeys : List String
  preservedBodyKeys : List String
deriving DecidableEq, Repr

/-- Translation of `detachNode` (lines 3161-3169): element (and
fragment) nodes are pushed on the `detachedNodes` queue and marked in
`detachedByDOMNode`, staying in the DOM for now; text/comment nodes
are destroyed and removed immediately.  Returns whether the node stays
in the DOM, the new state, and the issued mutations. -/
def detachNode (n : RNode) (st : MState) : Bool × MState × List Mut :=
  match n with
  | .el nid _ _ _ =>
    let marks2 := if nid ∈ st.marks then st.marks else st.marks ++ [nid]
    (true, { st with queue := st.queue ++ [nid], marks := marks2 }, [])
  | .txt nid _ => (false, st, [Mut.removeC nid])
  | .cmt nid _ => (false, st, [Mut.removeC nid])

/-- Translation of lines 3323-3325: when the keyed match found in the
table carries a detached mark, the mark is cleared. -/
def rescueMark (st : MState) (nid : Nat) : MState :=
  if nid ∈ st.marks then { st with marks := st.marks.filter (fun x => x != nid) } else st

/-- The relocation decision of the keyed-match-elsewhere branch (lines
3331-3376): when the matched node is exactly the next real sibling of
the cursor (`fromNextSibling === matchingFromEl`), peek at the next
target child; a single element swap happens when it exists and its raw
key `===`-equals the cursor node's stored key, a single element
removal otherwise; when the matched node is further away (or the
cursor is null), it is moved after the cursor and the cursor is
detached. -/
inductive RelocAction where
  | swap
  | removal
  | moveAfter
deriving DecidableEq, Repr

def relocDecision (adjacent : Bool) (hasNext : Bool) (nextRawKey cursorKey : JSKey) :
    RelocAction :=
  if adjacent then
    if hasNext && nextRawKey == cursorKey then .swap else .removal
  else .moveAfter

/-- The mutations issued by `VElement.aC_` (lines 2637-2676) while
creating a real element for a virtual element: each retained (not
null/undefined/false) attribute is set, with xlink translation; a
custom element gets property assignment instead; a textarea element
additionally gets its `value` property written. -/
def actualizeElMuts (v : VEl) : List Mut :=
  if hasFlag v.flags FLAG_CUSTOM_ELEMENT then assignProps v.attrs.map
  else
    (v.attrs.map.flatMap (fun p =>
      if isRemovedValue p.2 then []
      else
        let t := attrTarget p.1
        [Mut.setA t.1 t.2 (convertAttrValue p.2)])) ++
    (if hasFlag v.flags FLAG_IS_TEXTAREA then [Mut.prop "value"] else [])

/-- The tag names carrying a `specialElHandlers` entry
(lines 2248-2313).  Their handlers synchronise live DOM properties
(checked / disabled / selected / value / selectedIndex) and the
matching boolean attributes; the invocation is recorded as one opaque
`special` mutation, and theorems that must rule its effects out
restrict to trees without these tags. -/
def specialElHandlerMuts (tag : String) : List Mut :=
  if tag = "OPTION" || tag = "INPUT" || tag = "TEXTAREA" || tag = "SELECT"
  then [Mut.special tag] else []

/-- The cursor test `curFromNodeKey === curToNodeKey` of the keyed fast
path (line 3269): it holds exactly when the cursor node carries the
resolved target key as its stored key, which makes it a real element;
its element data is returned. -/
def cursorKeyedElMatch (suffix : List RNode) (rk : String) :
    Option (Nat × VEl × List RNode × List RNode) :=
  match suffix with
  | RNode.el cid assoc sk rch :: restf =>
    if sk = some rk then some (cid, assoc, rch, restf) else none
  | _ => none

/-- Remove the first top-level node with the given id from a sibling
list, returning it and the remainder. -/
def extractTop : List RNode → Nat → Option (RNode × List RNode)
  | [], _ => none
  | c :: t, mid =>
    if c.nid = mid then some (c, t)
    else (extractTop t mid).map (fun r => (r.1, c :: r.2))

/-- Find the matched node of a keyed-table hit among the already
processed siblings and the remaining siblings, removing it from its
place (the DOM move of the relocation branches). -/
def extractById (processed suffix : List RNode) (mid : Nat) :
    Option (RNode × List RNode × List RNode) :=
  match extractTop processed mid with
  | some r => some (r.1, r.2, suffix)
  | none =>
    match extractTop suffix mid with
    | some r => some (r.1, processed, r.2)
    | none => none

/-- Find without removing. -/
def findTop : List RNode → Nat → Option RNode
  | [], _ => none
  | c :: t, mid => if c.nid = mid then some c else findTop t mid

def findById2 (processed suffix : List RNode) (mid : Nat) : Option RNode :=
  match findTop processed mid with
  | some n => some n
  | none => findTop suffix mid

/-- Remove the first top-level node with the given id, keeping the
rest (used when detachNode removed a text/comment node in place). -/
def removeTopById (l : List RNode) (mid : Nat) : List RNode :=
  match extractTop l mid with
  | some r => r.2
  | none => l

/-- The tag of the matched node's associated virtual element
(`vElementByDOMNode.get(matchingFromEl).aB_`), used by
`compareNodeNames`; a non-element node has no association and can
never compare equal to an element tag (modelled by the empty tag,
which no element uses). -/
def matchedAssocTag : RNode → String
  | .el _ assoc _ _ => assoc.tag
  | _ => ""

/-- The result of the unkeyed forward scan (the inner while loop of
morphChildren): the nodes passed over that stay in the DOM (detached
elements and preserved-key skips), the match together with the
remaining siblings when one was found, the updated state and the
mutations issued while skipping. -/
structure ScanRes where
  skipped : List RNode
  found : Option (RNode × List RNode)
  st : MState
  muts : List Mut

/-- Translation of the unkeyed matching loop (lines 3402-3478),
restricted to the node kinds of this model (component roots do not
occur in `RNode`; every element carries its virtual association, so
the foreign-element skip is dead).  An element candidate whose
association carries a truthy key is incompatible; an incompatible
candidate is detached unless the `curFromNodeKey` variable holds a
truthy key listed in the preserved-keys map `_x_`, in which case it is
skipped; text/comment candidates match targets of the same node type
(their value synchronisation is performed by the caller). -/
def scanF (ctx : MCtx) (t : VNode) (suffix : List RNode) (st : MState) : ScanRes :=
  match suffix with
  | [] => ⟨[], none, st, []⟩
  | c :: rest =>
    match c, t with
    | RNode.el cid assoc sk rch, VNode.el v _ =>
      let st1 := { st with lastFromKey :=
        (match assoc.key with
         | none => JSKey.jsnull
         | some s => JSKey.str s) }
      if jsTruthyKey assoc.key then
        if jsKeyTruthy st1.lastFromKey && decide (jsKeyStr st1.lastFromKey ∈ ctx.preservedKeys) then
          let r := scanF ctx t rest st1
          ⟨RNode.el cid assoc sk rch :: r.skipped, r.found, r.st, r.muts⟩
        else
          let d := detachNode (RNode.el cid assoc sk rch) st1
          let r := scanF ctx t rest d.2.1
          ⟨(if d.1 then [RNode.el cid assoc sk rch] else []) ++ r.skipped, r.found, r.st,
            d.2.2 ++ r.muts⟩
      else
        if assoc.tag = v.tag then
          ⟨[], some (RNode.el cid assoc sk rch, rest), st1, []⟩
        else
          let d := detachNode (RNode.el cid assoc sk rch) st1
          let r := scanF ctx t rest d.2.1
          ⟨(if d.1 then [RNode.el cid assoc sk rch] else []) ++ r.skipped, r.found, r.st,
            d.2.2 ++ r.muts⟩
    | RNode.txt cid s, VNode.txt _ => ⟨[], some (RNode.txt cid s, rest), st, []⟩
    | RNode.cmt cid s, VNode.cmt _ => ⟨[], some (RNode.cmt cid s, rest), st, []⟩
    | c, _ =>
      if jsKeyTruthy st.lastFromKey && decide (jsKeyStr st.lastFromKey ∈ ctx.preservedKeys) then
        let r := scanF ctx t rest st
        ⟨c :: r.skipped, r.found, r.st, r.muts⟩
      else
        let d := detachNode c st
        let r := scanF ctx t rest d.2.1
        ⟨(if d.1 then [c] else []) ++ r.skipped, r.found, r.st, d.2.2 ++ r.muts⟩

/-- The result of one morphChildren continuation: the processed output
siblings, the unconsumed real siblings (always empty at the end of a
list run, before tail cleanup), the state and the mutations. -/
structure StepRes where
  processed : List RNode
  suffix : List RNode
  st : MState
  muts : List Mut

/-- Leftover-sibling tail cleanup (lines 3496-3523) for this model:
each remaining sibling goes through detachNode (component roots do not
occur; the fragment-finish branch does not apply). -/
def tailF : List RNode → MState → List RNode × MState × List Mut
  | [], st => ([], st, [])
  | c :: rest, st =>
    let d := detachNode c st
    let r := tailF rest d.2.1
    ((if d.1 then [c] else []) ++ r.1, r.2.1, d.2.2 ++ r.2.2)

mutual

/-- Size measure used for the termination of the mutual morph
functions. -/
def vsize : VNode → Nat
  | .el _ cs => 1 + vsizeList cs
  | .txt _ => 1
  | .cmt _ => 1

/-- List form of `vsize`. -/
def vsizeList : List VNode → Nat
  | [] => 0
  | t :: ts => 1 + vsize t + vsizeList ts

end

mutual

/-- Translation of `insertVirtualNodeBefore` (lines 3126-3140) together
with `VNode.aC_` per node kind: the real node is materialised (issuing
the creation-time attribute writes), inserted before the reference
node, registered in `keysByDOMNode` and the scope's keyed table when
the key is truthy, and for an element its virtual children are
committed by morphChildren against its empty real child list.
(`onNodeAdded` delegates to `eventDelegation._I_`, a no-op in this
bundle.) -/
def insertVirtualNodeF (ctx : MCtx) (t : VNode) (key : Option String) (st : MState) :
    RNode × MState × List Mut :=
  match t with
  | VNode.el v cs =>
    let nid := st.nextId
    let st1 := { st with nextId := st.nextId + 1 }
    let storedKey := if jsTruthyKey key then key else none
    let st2 := if jsTruthyKey key
      then { st1 with keyed := ksSet st1.keyed (key.getD "") nid } else st1
    let r := morphChildrenF ctx [] cs st2
    (RNode.el nid v storedKey r.1, r.2.1, actualizeElMuts v ++ [Mut.insertB nid] ++ r.2.2)
  | VNode.txt s =>
    (RNode.txt st.nextId s, { st with nextId := st.nextId + 1 }, [Mut.insertB st.nextId])
  | VNode.cmt s =>
    (RNode.cmt st.nextId s, { st with nextId := st.nextId + 1 }, [Mut.insertB st.nextId])
termination_by 4 * vsize t + 1
decreasing_by all_goals (first | (simp [vsize, vsizeList]; omega) | simp [vsize, vsizeList] | omega)

/-- Translation of `morphEl` (lines 3526-3553), with
`isRerenderInBrowser` false (so the keyed-table refresh is dead): the
constant-id short-circuit returns before any attribute or child
diffing; otherwise morphAttrs runs (which re-associates the real
element with the new virtual element), a preserved-body key skips the
children, children are morphed unless the tag is TEXTAREA, and the
special element handler for the tag (when any) runs last. -/
def morphElF (ctx : MCtx) (nid : Nat) (assoc : VEl) (storedKey : Option String)
    (rchildren : List RNode) (v : VEl) (vchildren : List VNode)
    (toElKey : Option String) (st : MState) : RNode × MState × List Mut :=
  if v.constId.isSome && assoc.constId == v.constId then
    (RNode.el nid assoc storedKey rchildren, st, [])
  else
    let am := morphAttrs assoc v
    if jsTruthyKey toElKey && decide (toElKey.getD "" ∈ ctx.preservedBodyKeys) then
      (RNode.el nid v storedKey rchildren, st, am)
    else if v.tag ≠ "TEXTAREA" then
      let r := morphChildrenF ctx rchildren vchildren st
      (RNode.el nid v storedKey r.1, r.2.1, am ++ r.2.2 ++ specialElHandlerMuts v.tag)
    else
      (RNode.el nid v storedKey rchildren, st, am ++ specialElHandlerMuts v.tag)
termination_by 4 * vsizeList vchildren + 4
decreasing_by all_goals (first | (simp [vsize, vsizeList]; omega) | simp [vsize, vsizeList] | omega)

/-- morphEl dispatch on a matched real node (the keyed relocation
branches call morphEl on the matched element; a non-element node has
no virtual association and cannot reach these branches in states
produced by the engine — it is returned unchanged). -/
def morphElOnNode (ctx : MCtx) (n : RNode) (v : VEl) (cs : List VNode)
    (toElKey : Option String) (st : MState) : RNode × MState × List Mut :=
  match n with
  | RNode.el cid assoc sk rch => morphElF ctx cid assoc sk rch v cs toElKey st
  | other => (other, st, [])
termination_by 4 * vsizeList cs + 5
decreasing_by all_goals (first | (simp [vsize, vsizeList]; omega) | simp [vsize, vsizeList] | omega)

/-- Translation of `morphChildren` (lines 3175-3524): run the outer
loop over the target children, then detach every leftover real
sibling. -/
def morphChildrenF (ctx : MCtx) (fromChildren : List RNode) (ts : List VNode)
    (st : MState) : List RNode × MState × List Mut :=
  let r := morphListF ctx ts [] fromChildren st
  let tl := tailF r.suffix r.st
  (r.processed ++ tl.1, tl.2.1, r.muts ++ tl.2.2)
termination_by 4 * vsizeList ts + 3
decreasing_by all_goals (first | (simp [vsize, vsizeList]; omega) | simp [vsize, vsizeList] | omega)

/-- The outer loop of morphChildren (lines 3190-3488) for this model
(no component targets, no fragments, no hydration).  `processed` holds
the siblings already placed before the cursor, `suffix` the cursor and
the siblings after it.  A keyed element target resolves its key
through the scope's KeySequence and takes the fast path when the
cursor's stored key equals the resolved key; otherwise it consults the
keyed table and relocates or inserts per `relocDecision`, clearing the
detached mark of a matched node.  An unkeyed target runs the forward
scan; a match is morphed in place (elements) or value-synchronised
(text/comments); scan exhaustion appends a fresh node. -/
def morphListF (ctx : MCtx) (ts : List VNode) (processed : List RNode)
    (suffix : List RNode) (st : MState) : StepRes :=
  match ts with
  | [] => ⟨processed, suffix, st, []⟩
  | VNode.el v cs :: tsRest =>
    if jsTruthyKey v.key then
      let kr := keySequenceNextKey st.ks (v.key.getD "")
      let rk := kr.1
      let lfk := (match suffix.head? with
        | some c => storedKeyJS c
        | none => JSKey.undef)
      let st1 := { st with ks := kr.2, lastFromKey := lfk }
      match cursorKeyedElMatch suffix rk with
      | some (cid, assoc, rch, restf) =>
        if hasFlag v.flags FLAG_PRESERVE then
          let rec1 := morphListF ctx tsRest
            (processed ++ [RNode.el cid assoc (some rk) rch]) restf st1
          ⟨rec1.processed, rec1.suffix, rec1.st, rec1.muts⟩
        else
          if assoc.tag = v.tag then
            let me := morphElF ctx cid assoc (some rk) rch v cs (some rk) st1
            let rec1 := morphListF ctx tsRest (processed ++ [me.1]) restf me.2.1
            ⟨rec1.processed, rec1.suffix, rec1.st, me.2.2 ++ rec1.muts⟩
          else
            let d := detachNode (RNode.el cid assoc (some rk) rch) st1
            let ins := insertVirtualNodeF ctx (VNode.el v cs) (some rk) d.2.1
            let rec1 := morphListF ctx tsRest
              (processed ++ [ins.1] ++
                (if d.1 then [RNode.el cid assoc (some rk) rch] else [])) restf ins.2.1
            ⟨rec1.processed, rec1.suffix, rec1.st, d.2.2 ++ ins.2.2 ++ rec1.muts⟩
      | none =>
        match st1.keyed.lookup rk with
        | none =>
          let ins := insertVirtualNodeF ctx (VNode.el v cs) (some rk) st1
          let rec1 := morphListF ctx tsRest (processed ++ [ins.1]) suffix ins.2.1
          ⟨rec1.processed, rec1.suffix, rec1.st, ins.2.2 ++ rec1.muts⟩
        | some mid =>
          let st2 := rescueMark st1 mid
          if hasFlag v.flags FLAG_PRESERVE then
            match extractById processed suffix mid with
            | some r =>
              let rec1 := morphListF ctx tsRest (r.2.1 ++ [r.1]) r.2.2 st2
              ⟨rec1.processed, rec1.suffix, rec1.st, [Mut.insertB mid] ++ rec1.muts⟩
            | none =>
              let rec1 := morphListF ctx tsRest processed suffix st2
              ⟨rec1.processed, rec1.suffix, rec1.st, rec1.muts⟩
          else
            match findById2 processed suffix mid with
            | none =>
              let ins := insertVirtualNodeF ctx (VNode.el v cs) (some rk) st2
              let rec1 := morphListF ctx tsRest (processed ++ [ins.1]) suffix ins.2.1
              ⟨rec1.processed, rec1.suffix, rec1.st, ins.2.2 ++ rec1.muts⟩
            | some matched0 =>
              if matchedAssocTag matched0 = v.tag then
                match extractById processed suffix mid with
                | none =>
                  let ins := insertVirtualNodeF ctx (VNode.el v cs) (some rk) st2
                  let rec1 := morphListF ctx tsRest (processed ++ [ins.1]) suffix ins.2.1
                  ⟨rec1.processed, rec1.suffix, rec1.st, ins.2.2 ++ rec1.muts⟩
                | some r =>
                  let matched := r.1
                  let pE := r.2.1
                  let sE := r.2.2
                  let adjacent := (match suffix with
                    | _ :: m :: _ => m.nid == mid
                    | _ => false)
                  match relocDecision adjacent (!tsRest.isEmpty) (rawKeyJSHead tsRest)
                      st1.lastFromKey with
                  | RelocAction.swap =>
                    let me := morphElOnNode ctx matched v cs (some rk) st2
                    let rec1 := morphListF ctx tsRest (pE ++ [me.1]) sE me.2.1
                    ⟨rec1.processed, rec1.suffix, rec1.st,
                      [Mut.insertB mid] ++ me.2.2 ++ rec1.muts⟩
                  | RelocAction.removal =>
                    match sE with
                    | cursor :: rest2 =>
                      let d := detachNode cursor st2
                      let me := morphElOnNode ctx matched v cs (some rk) d.2.1
                      let rec1 := morphListF ctx tsRest
                        (pE ++ (if d.1 then [cursor] else []) ++ [me.1]) rest2 me.2.1
                      ⟨rec1.processed, rec1.suffix, rec1.st,
                        d.2.2 ++ me.2.2 ++ rec1.muts⟩
                    | [] =>
                      let me := morphElOnNode ctx matched v cs (some rk) st2
                      let rec1 := morphListF ctx tsRest (pE ++ [me.1]) [] me.2.1
                      ⟨rec1.processed, rec1.suffix, rec1.st, me.2.2 ++ rec1.muts⟩
                  | RelocAction.moveAfter =>
                    match sE with
                    | cursor :: rest2 =>
                      let d := detachNode cursor st2
                      let me := morphElOnNode ctx matched v cs (some rk) d.2.1
                      let rec1 := morphListF ctx tsRest
                        (pE ++ (if d.1 then [cursor] else []) ++ [me.1]) rest2 me.2.1
                      ⟨rec1.processed, rec1.suffix, rec1.st,
                        [Mut.insertB mid] ++ d.2.2 ++ me.2.2 ++ rec1.muts⟩
                    | [] =>
                      let me := morphElOnNode ctx matched v cs (some rk) st2
                      let rec1 := morphListF ctx tsRest (pE ++ [me.1]) [] me.2.1
                      ⟨rec1.processed, rec1.suffix, rec1.st,
                        [Mut.insertB mid] ++ me.2.2 ++ rec1.muts⟩
              else
                let ins := insertVirtualNodeF ctx (VNode.el v cs) (some rk) st2
                let d := detachNode matched0 ins.2.1
                let processed4 := if d.1 then processed else removeTopById processed mid
                let suffix4 := if d.1 then suffix else removeTopById suffix mid
                match suffix4 with
                | cursor :: rest2 =>
                  let rec1 := morphListF ctx tsRest
                    (processed4 ++ [ins.1, cursor]) rest2 d.2.1
                  ⟨rec1.processed, rec1.suffix, rec1.st,
                    ins.2.2 ++ d.2.2 ++ rec1.muts⟩
                | [] =>
                  let rec1 := morphListF ctx tsRest (processed4 ++ [ins.1]) [] d.2.1
                  ⟨rec1.processed, rec1.suffix, rec1.st,
                    ins.2.2 ++ d.2.2 ++ rec1.muts⟩
    else
      let sc := scanF ctx (VNode.el v cs) suffix st
      match sc.found with
      | none =>
        let ins := insertVirtualNodeF ctx (VNode.el v cs) v.key sc.st
        let rec1 := morphListF ctx tsRest (processed ++ sc.skipped ++ [ins.1]) [] ins.2.1
        ⟨rec1.processed, rec1.suffix, rec1.st, sc.muts ++ ins.2.2 ++ rec1.muts⟩
      | some fr =>
        match fr.1 with
        | RNode.el cid assoc sk rch =>
          let me := morphElF ctx cid assoc sk rch v cs v.key sc.st
          let rec1 := morphListF ctx tsRest (processed ++ sc.skipped ++ [me.1]) fr.2 me.2.1
          ⟨rec1.processed, rec1.suffix, rec1.st, sc.muts ++ me.2.2 ++ rec1.muts⟩
        | c =>
          let rec1 := morphListF ctx tsRest (processed ++ sc.skipped ++ [c]) fr.2 sc.st
          ⟨rec1.processed, rec1.suffix, rec1.st, sc.muts ++ rec1.muts⟩
  | VNode.txt sv :: tsRest =>
    let sc := scanF ctx (VNode.txt sv) suffix st
    match sc.found with
    | none =>
      let ins := insertVirtualNodeF ctx (VNode.txt sv) none sc.st
      let rec1 := morphListF ctx tsRest (processed ++ sc.skipped ++ [ins.1]) [] ins.2.1
      ⟨rec1.processed, rec1.suffix, rec1.st, sc.muts ++ ins.2.2 ++ rec1.muts⟩
    | some fr =>
      match fr.1 with
      | RNode.txt cid s =>
        let w := if s ≠ sv then [Mut.nodeVal cid sv] else []
        let rec1 := morphListF ctx tsRest
          (processed ++ sc.skipped ++ [RNode.txt cid sv]) fr.2 sc.st
        ⟨rec1.processed, rec1.suffix, rec1.st, sc.muts ++ w ++ rec1.muts⟩
      | c =>
        let rec1 := morphListF ctx tsRest (processed ++ sc.skipped ++ [c]) fr.2 sc.st
        ⟨rec1.processed, rec1.suffix, rec1.st, sc.muts ++ rec1.muts⟩
  | VNode.cmt sv :: tsRest =>
    let sc := scanF ctx (VNode.cmt sv) suffix st
    match sc.found with
    | none =>
      let ins := insertVirtualNodeF ctx (VNode.cmt sv) none sc.st
      let rec1 := morphListF ctx tsRest (processed ++ sc.skipped ++ [ins.1]) [] ins.2.1
      ⟨rec1.processed, rec1.suffix, rec1.st, sc.muts ++ ins.2.2 ++ rec1.muts⟩
    | some fr =>
      match fr.1 with
      | RNode.cmt cid s =>
        let w := if s ≠ sv then [Mut.nodeVal cid sv] else []
        let rec1 := morphListF ctx tsRest
          (processed ++ sc.skipped ++ [RNode.cmt cid sv]) fr.2 sc.st
        ⟨rec1.processed, rec1.suffix, rec1.st, sc.muts ++ w ++ rec1.muts⟩
      | c =>
        let rec1 := morphListF ctx tsRest (processed ++ sc.skipped ++ [c]) fr.2 sc.st
        ⟨rec1.processed, rec1.suffix, rec1.st, sc.muts ++ rec1.muts⟩
termination_by 4 * vsizeList ts
decreasing_by all_goals (first | (simp [vsize, vsizeList]; omega) | simp [vsize, vsizeList] | omega)

end

mutual

/-- Look a node id up in a real tree. -/
def findInNode (n : RNode) (mid : Nat) : Option RNode :=
  match n with
  | .el nid _ _ cs => if nid = mid then some n else findInForest cs mid
  | .txt nid _ => if nid = mid then some n else none
  | .cmt nid _ => if nid = mid then some n else none

/-- Look a node id up in a real forest. -/
def findInForest (l : List RNode) (mid : Nat) : Option RNode :=
  match l with
  | [] => none
  | c :: t =>
    match findInNode c mid with
    | some n => some n
    | none => findInForest t mid

end

mutual

/-- Remove the node with the given id inside a tree (`none` when the
tree itself is the node). -/
def removeInNode (n : RNode) (mid : Nat) : Option RNode :=
  match n with
  | .el nid a k cs => if nid = mid then none else some (RNode.el nid a k (removeInForest cs mid))
  | .txt nid _ => if nid = mid then none else some n
  | .cmt nid _ => if nid = mid then none else some n

/-- Remove the node with the given id from a forest. -/
def removeInForest (l : List RNode) (mid : Nat) : List RNode :=
  match l with
  | [] => []
  | c :: t =>
    match removeInNode c mid with
    | none => t
    | some c2 => c2 :: removeInForest t mid

end

mutual

/-- The (stored key, node id) pairs of a subtree — the keyed-table
entries that `destroyNodeRecursive` deletes when tearing the subtree
down (util module, lines 688-708: an entry is deleted when the node is
exactly the one registered under its key). -/
def collectKeyedNode (n : RNode) : List (String × Nat) :=
  match n with
  | .el nid _ (some k) cs => (k, nid) :: collectKeyedForest cs
  | .el _ _ none cs => collectKeyedForest cs
  | _ => []

def collectKeyedForest (l : List RNode) : List (String × Nat) :=
  match l with
  | [] => []
  | c :: t => collectKeyedNode c ++ collectKeyedForest t

end

/-- One iteration of the final detached-nodes pass of morphdom (lines
3557-3574): a queued node whose detached mark is still set has the
mark cleared and — since component roots do not occur in this model
and its parent exists whenever the node is still in the tree — is torn
down by `destroyNodeRecursive` (which drops its subtree's keyed-table
entries) and removed (`eventDelegation.z_` is a no-op in this bundle,
so the removal always runs).  A queued node whose mark was cleared is
left untouched. -/
def finalizeOne (dom : List RNode) (marks : List Nat) (keyed : List (String × Nat))
    (nid : Nat) : List RNode × List Nat × List (String × Nat) × List Mut :=
  if nid ∈ marks then
    let marks2 := marks.filter (fun x => x != nid)
    match findInForest dom nid with
    | some n =>
      (removeInForest dom nid, marks2,
        keyed.filter (fun e => !(collectKeyedNode n).contains e), [Mut.removeC nid])
    | none => (dom, marks2, keyed, [])
  else (dom, marks, keyed, [])

/-- The final pass over the `detachedNodes` queue, in push order. -/
def finalizePass (dom : List RNode) (marks : List Nat) (keyed : List (String × Nat)) :
    List Nat → List RNode × List Nat × List (String × Nat) × List Mut
  | [] => (dom, marks, keyed, [])
  | nid :: rest =>
    let r := finalizeOne dom marks keyed nid
    let r2 := finalizePass r.1 r.2.1 r.2.2.1 rest
    (r2.1, r2.2.1, r2.2.2.1, r.2.2.2 ++ r2.2.2.2)

/-- Translation of one whole `morphdom` pass (lines 3116-3575) in this
model: a fresh KeySequence table and an empty detached queue, the
morphChildren walk from the root, then the detached-nodes finalize
pass.  `keyed0` is the scope's keyed-element table surviving from
earlier passes, `nextId0` a supply of fresh real-node ids. -/
def morphdomF (ctx : MCtx) (keyed0 : List (String × Nat)) (fromChildren : List RNode)
    (ts : List VNode) (nextId0 : Nat) : List RNode × MState × List Mut :=
  let st0 : MState := ⟨[], keyed0, [], [], nextId0, JSKey.undef⟩
  let r := morphChildrenF ctx fromChildren ts st0
  let f := finalizePass r.1 r.2.1.marks r.2.1.keyed r.2.1.queue
  (f.1, { r.2.1 with marks := f.2.1, keyed := f.2.2.1 }, r.2.2 ++ f.2.2.2)

/-- Counterexample for C2: the claim predicts a swap whenever the next
target child exists and its key equals the cursor node's key, but the
source performs a swap only when the keyed match is additionally the
immediate next real sibling of the cursor; with the match further away
the code moves it after the cursor and detaches the cursor even when
the next target's key equals the cursor's key. -/
theorem c2_counterexample :
    ¬ (∀ (adjacent hasNext : Bool) (nk ck : JSKey),
        relocDecision adjacent hasNext nk ck = RelocAction.swap ↔
          (hasNext = true ∧ nk = ck)) := by
  intro h
  have := (h false true (JSKey.str "a") (JSKey.str "a")).mpr ⟨rfl, rfl⟩
  simp [relocDecision] at this

/-- C2 (amended): in the keyed-match-elsewhere branch, a single element
swap is performed exactly when the matched node is the immediate next
real sibling of the cursor and the next target child exists with raw
key `===`-equal to the cursor node's stored key; with the matched node
adjacent but the peek failing, a single element removal is performed;
and the detached mark of the matched node is always cleared. -/
theorem c2_keyed_relocation (adjacent hasNext : Bool) (nk ck : JSKey)
    (st : MState) (mid : Nat) :
    (relocDecision adjacent hasNext nk ck = RelocAction.swap ↔
      (adjacent = true ∧ hasNext = true ∧ nk = ck)) ∧
    (relocDecision adjacent hasNext nk ck = RelocAction.removal ↔
      (adjacent = true ∧ ¬(hasNext = true ∧ nk = ck))) ∧
    mid ∉ (rescueMark st mid).marks := by
  refine ⟨?_, ?_, ?_⟩
  · unfold relocDecision
    cases adjacent <;> cases hasNext <;> by_cases hk : nk = ck <;>
      simp [hk]
  · unfold relocDecision
    cases adjacent <;> cases hasNext <;> by_cases hk : nk = ck <;>
      simp [hk]
  · unfold rescueMark
    by_cases hm : mid ∈ st.marks
    · rw [if_pos hm]
      intro hmem
      have := List.of_mem_filter hmem
      simp at this
    · rw [if_neg hm]
      exact hm

/-- Example data for C5: identical constant-id tokens, different
attribute maps. -/
def vfC5 : VEl :=
  { tag := "DIV", key := none,
    attrs := { oid := 0, map := [("class", AttrValue.str "a")] },
    constId := some 5, flags := 0 }

def vtC5 : VEl :=
  { tag := "DIV", key := none,
    attrs := { oid := 1, map := [("class", AttrValue.str "b"), ("id", AttrValue.str "z")] },
    constId := some 5, flags := 0 }

/-- C5: the constant-id short-circuit.  When the new virtual element
carries a present (`!== undefined`) constant-id token equal to the old
virtual element's token, morphEl returns before morphAttrs and before
any child diffing: the real element (including its association and
children) is unchanged, the state is unchanged, and no mutation is
issued — whatever the two attribute maps contain. -/
theorem c5_const_id_short_circuit (ctx : MCtx) (nid : Nat) (assoc : VEl)
    (storedKey : Option String) (rchildren : List RNode) (v : VEl)
    (vchildren : List VNode) (toElKey : Option String) (st : MState) (c : Int)
    (h1 : v.constId = some c) (h2 : assoc.constId = some c) :
    morphElF ctx nid assoc storedKey rchildren v vchildren toElKey st =
      (RNode.el nid assoc storedKey rchildren, st, []) := by
  unfold morphElF
  rw [h1, h2]
  simp

/-- Witness for C5 at a concrete input: the attribute maps differ, yet
no diffing happens. -/
theorem c5_const_id_short_circuit_witness :
    vfC5.attrs.map ≠ vtC5.attrs.map ∧
    morphElF { preservedKeys := [], preservedBodyKeys := [] } 1 vfC5 none []
        vtC5 [] none
        { ks := [], keyed := [], marks := [], queue := [], nextId := 10,
          lastFromKey := JSKey.undef } =
      (RNode.el 1 vfC5 none [],
        { ks := [], keyed := [], marks := [], queue := [], nextId := 10,
          lastFromKey := JSKey.undef }, []) :=
  ⟨by decide, c5_const_id_short_circuit _ 1 vfC5 none [] vtC5 [] none _ 5 rfl rfl⟩

/-- C10: deferred detach with rescue.  (1) detachNode removes a
text/comment node immediately without queueing it; (2) detachNode on
an element only marks and queues it, removing nothing; (3) a node
matched again by key has its mark cleared by the rescue step; (4) in
the final pass, a queued node that is still in the tree is destroyed
and removed exactly when its detached mark is still set (its mark is
cleared, its subtree's keyed-table entries are dropped), and a queued
node whose mark was cleared is left untouched. -/
theorem c10_deferred_detach_with_rescue (st : MState) (nid : Nat) (s : String)
    (assoc : VEl) (sk : Option String) (cs : List RNode)
    (dom : List RNode) (marks : List Nat) (keyed : List (String × Nat)) (n : RNode)
    (hfind : findInForest dom nid = some n) :
    detachNode (RNode.txt nid s) st = (false, st, [Mut.removeC nid]) ∧
    detachNode (RNode.cmt nid s) st = (false, st, [Mut.removeC nid]) ∧
    ((detachNode (RNode.el nid assoc sk cs) st).1 = true ∧
      (detachNode (RNode.el nid assoc sk cs) st).2.1.queue = st.queue ++ [nid] ∧
      nid ∈ (detachNode (RNode.el nid assoc sk cs) st).2.1.marks ∧
      (detachNode (RNode.el nid assoc sk cs) st).2.2 = []) ∧
    nid ∉ (rescueMark st nid).marks ∧
    (nid ∈ marks →
      finalizeOne dom marks keyed nid =
        (removeInForest dom nid, marks.filter (fun x => x != nid),
          keyed.filter (fun e => !(collectKeyedNode n).contains e), [Mut.removeC nid])) ∧
    (nid ∉ marks → finalizeOne dom marks keyed nid = (dom, marks, keyed, [])) := by
  refine ⟨rfl, rfl, ?_, ?_, ?_, ?_⟩
  · unfold detachNode
    refine ⟨rfl, rfl, ?_, rfl⟩
    by_cases hm : nid ∈ st.marks
    · simp [hm]
    · simp [hm]
  · unfold rescueMark
    by_cases hm : nid ∈ st.marks
    · rw [if_pos hm]
      intro hmem
      have := List.of_mem_filter hmem
      simp at this
    · rw [if_neg hm]
      exact hm
  · intro hm
    unfold finalizeOne
    rw [if_pos hm, hfind]
  · intro hm
    unfold finalizeOne
    rw [if_neg hm]

/-- Witness for C10 at a concrete input: one marked element node in a
one-node tree is removed by the final pass; the same node unmarked is
untouched. -/
theorem c10_deferred_detach_with_rescue_witness :
    findInForest [RNode.el 3 vfC5 none []] 3 = some (RNode.el 3 vfC5 none []) ∧
    finalizeOne [RNode.el 3 vfC5 none []] [3] [] 3 =
      ([], [], [], [Mut.removeC 3]) ∧
    finalizeOne [RNode.el 3 vfC5 none []] [] [] 3 =
      ([RNode.el 3 vfC5 none []], [], [], []) := by
  have h := c10_deferred_detach_with_rescue
    { ks := [], keyed := [], marks := [], queue := [], nextId := 0,
      lastFromKey := JSKey.undef } 3 "" vfC5 none []
    [RNode.el 3 vfC5 none []] [3] [] (RNode.el 3 vfC5 none []) rfl
  have h2 := c10_deferred_detach_with_rescue
    { ks := [], keyed := [], marks := [], queue := [], nextId := 0,
      lastFromKey := JSKey.undef } 3 "" vfC5 none []
    [RNode.el 3 vfC5 none []] [] [] (RNode.el 3 vfC5 none []) rfl
  refine ⟨rfl, ?_, ?_⟩
  · have := h.2.2.2.2.1 (by simp)
    exact this.trans (by rfl)
  · exact h2.2.2.2.2.2 (by simp)

/-!
Dedicated model of the unkeyed forward scan (the inner while loop of
morphChildren, lines 3402-3488) including the component-root and
foreign-element candidates that the whole-pass model excludes; used for
the unkeyed-matching claim. -/

/-- A real sibling as seen by the unkeyed forward scan: a component root
(recognised through `componentByDOMNode`), an element with its virtual
association when marko-managed (`vElementByDOMNode`; `none` for foreign
elements), or a text/comment node. -/
inductive FChild where
  | comp (cid : Nat)
  | el (nid : Nat) (assoc : Option (Option String × String))
  | txt (nid : Nat) (s : String)
  | cmt (nid : Nat) (s : String)
deriving DecidableEq, Repr

/-- The unkeyed, non-component target of one scan. -/
inductive UTarget where
  | el (tag : String)
  | txt (s : String)
  | cmt (s : String)
deriving DecidableEq, Repr

inductive ScanEvent where
  | destroyComp (cid : Nat)
  | detach (nid : Nat)
  | skip (nid : Nat)
deriving DecidableEq, Repr

inductive ScanOutcome where
  | matched (c : FChild) (rest : List FChild)
  | appendNew
deriving DecidableEq, Repr

/-- The effect of examining one candidate in the unkeyed scan: either
the candidate is the match and the loop stops, or events are issued
and the loop continues with a possibly updated `curFromNodeKey`
value. -/
inductive ScanStep where
  | stepMatch
  | stepSkip (ev : List ScanEvent) (newLast : JSKey)
deriving DecidableEq, Repr

/-- The detach-or-skip decision for an incompatible candidate (lines
3469-3475): the node is skipped without detaching exactly when the
`curFromNodeKey` variable holds a truthy key present in the
preserved-keys map `_x_`. -/
def scanUDetachOrSkip (xMap : List String) (nid : Nat) (lk : JSKey) : ScanStep :=
  if jsKeyTruthy lk && decide (jsKeyStr lk ∈ xMap) then
    ScanStep.stepSkip [ScanEvent.skip nid] lk
  else
    ScanStep.stepSkip [ScanEvent.detach nid] lk

/-- One iteration of the unkeyed matching loop (lines 3402-3478), with
`isRerenderInBrowser` false: a component candidate is skipped and
destroyed unless its id is in the rendered-components map `_z_`
(`zMap`); an element candidate with no virtual association is skipped
silently; one whose association carries a truthy key reassigns the
`curFromNodeKey` variable and is incompatible; a compatible candidate
(same node type; for elements also same tag) is the match; the
`curFromNodeKey` variable keeps its previous value whenever the
candidate does not reassign it (only the element/element case
assigns). -/
def scanUStep (zMap : List Nat) (xMap : List String) (t : UTarget) (c : FChild)
    (lastKey : JSKey) : ScanStep :=
  match c with
  | FChild.comp cid =>
    ScanStep.stepSkip (if cid ∈ zMap then [] else [ScanEvent.destroyComp cid]) lastKey
  | FChild.el nid assoc =>
    match t, assoc with
    | UTarget.el _, none => ScanStep.stepSkip [ScanEvent.skip nid] lastKey
    | UTarget.el ttag, some (akey, atag) =>
      let lastKey2 := (match akey with
        | none => JSKey.jsnull
        | some s => JSKey.str s)
      if jsTruthyKey akey then scanUDetachOrSkip xMap nid lastKey2
      else if atag = ttag then ScanStep.stepMatch
      else scanUDetachOrSkip xMap nid lastKey2
    | _, _ => scanUDetachOrSkip xMap nid lastKey
  | FChild.txt nid _ =>
    match t with
    | UTarget.txt _ => ScanStep.stepMatch
    | _ => scanUDetachOrSkip xMap nid lastKey
  | FChild.cmt nid _ =>
    match t with
    | UTarget.cmt _ => ScanStep.stepMatch
    | _ => scanUDetachOrSkip xMap nid lastKey

/-- Translation of the unkeyed matching loop (lines 3402-3488) as a
whole: iterate `scanUStep` over the remaining real children; a match
stops the loop (morphEl / nodeValue synchronisation on the match is
performed by the caller); exhaustion means the target is appended as a
new node. -/
def scanU (zMap : List Nat) (xMap : List String) (t : UTarget) :
    List FChild → JSKey → List ScanEvent × ScanOutcome
  | [], _ => ([], ScanOutcome.appendNew)
  | c :: rest, lastKey =>
    match scanUStep zMap xMap t c lastKey with
    | ScanStep.stepMatch => ([], ScanOutcome.matched c rest)
    | ScanStep.stepSkip ev newLast =>
      let r := scanU zMap xMap t rest newLast
      (ev ++ r.1, r.2)

/-- Compatibility as the source computes it: same node type, and for
elements a marko-managed association with no key and the same tag. -/
def codeCompatible (t : UTarget) (c : FChild) : Bool :=
  match t, c with
  | .el ttag, .el _ (some (akey, atag)) => !(jsTruthyKey akey) && atag == ttag
  | .txt _, .txt _ _ => true
  | .cmt _, .cmt _ _ => true
  | _, _ => false

/-- Split a sibling list at the first code-compatible candidate. -/
def splitFirstCompat (t : UTarget) : List FChild → Option (List FChild × FChild × List FChild)
  | [] => none
  | c :: rest =>
    if codeCompatible t c then some ([], c, rest)
    else (splitFirstCompat t rest).map (fun r => (c :: r.1, r.2.1, r.2.2))

/-- The per-candidate event of a skipped sibling (with no preserved
keys in play): a component is destroyed unless still rendered, a
foreign element is skipped silently when the target is an element
(the only case whose branch consults the association) and detached
otherwise, every other node is detached. -/
def scanEventsFor (zMap : List Nat) (t : UTarget) (c : FChild) : List ScanEvent :=
  match c with
  | .comp cid => if cid ∈ zMap then [] else [ScanEvent.destroyComp cid]
  | .el nid none =>
    (match t with
     | .el _ => [ScanEvent.skip nid]
     | _ => [ScanEvent.detach nid])
  | .el nid (some _) => [ScanEvent.detach nid]
  | .txt nid _ => [ScanEvent.detach nid]
  | .cmt nid _ => [ScanEvent.detach nid]

/-- Compatibility as the claim states it: same node type and, for
elements, the same tag name — with no condition on the candidate's
key. -/
def claimCompatible (t : UTarget) (c : FChild) : Bool :=
  match t, c with
  | .el ttag, .el _ (some (_, atag)) => atag == ttag
  | .txt _, .txt _ _ => true
  | .cmt _, .cmt _ _ => true
  | _, _ => false

theorem scanUStep_empty_compat {zMap : List Nat} {t : UTarget} {c : FChild}
    (lk : JSKey) (h : codeCompatible t c = true) :
    scanUStep zMap [] t c lk = ScanStep.stepMatch := by
  cases c with
  | comp cid => simp [codeCompatible] at h
  | el nid assoc =>
    cases t with
    | el ttag =>
      cases assoc with
      | none => simp [codeCompatible] at h
      | some p =>
        obtain ⟨akey, atag⟩ := p
        unfold codeCompatible at h
        simp only [Bool.and_eq_true, Bool.not_eq_true', beq_iff_eq] at h
        unfold scanUStep
        simp [h.1, h.2]
    | txt sv => simp [codeCompatible] at h
    | cmt sv => simp [codeCompatible] at h
  | txt nid s =>
    cases t with
    | txt sv => rfl
    | el ttag => simp [codeCompatible] at h
    | cmt sv => simp [codeCompatible] at h
  | cmt nid s =>
    cases t with
    | cmt sv => rfl
    | el ttag => simp [codeCompatible] at h
    | txt sv => simp [codeCompatible] at h

theorem scanUDetachOrSkip_empty (nid : Nat) (lk : JSKey) :
    scanUDetachOrSkip [] nid lk = ScanStep.stepSkip [ScanEvent.detach nid] lk := by
  unfold scanUDetachOrSkip
  simp

theorem scanUStep_empty_incompat {zMap : List Nat} {t : UTarget} {c : FChild}
    (lk : JSKey) (h : codeCompatible t c = false) :
    ∃ lk2, scanUStep zMap [] t c lk = ScanStep.stepSkip (scanEventsFor zMap t c) lk2 := by
  cases c with
  | comp cid => exact ⟨lk, rfl⟩
  | el nid assoc =>
    cases t with
    | el ttag =>
      cases assoc with
      | none => exact ⟨lk, rfl⟩
      | some p =>
        obtain ⟨akey, atag⟩ := p
        unfold scanUStep
        cases akey with
        | none =>
          have ht : atag ≠ ttag := by
            intro he
            rw [he] at h
            simp [codeCompatible, jsTruthyKey] at h
          refine ⟨JSKey.jsnull, ?_⟩
          have hk2 : jsTruthyKey none = false := rfl
          simp only [hk2, Bool.false_eq_true, if_false, if_neg ht]
          rw [scanUDetachOrSkip_empty]
          rfl
        | some s =>
          by_cases hk : jsTruthyKey (some s) = true
          · refine ⟨JSKey.str s, ?_⟩
            simp only [hk, if_true]
            rw [scanUDetachOrSkip_empty]
            rfl
          · have hk2 : jsTruthyKey (some s) = false := by simpa using hk
            have ht : atag ≠ ttag := by
              intro he
              rw [he] at h
              simp [codeCompatible, hk2] at h
            refine ⟨JSKey.str s, ?_⟩
            simp only [hk2, Bool.false_eq_true, if_false, if_neg ht]
            rw [scanUDetachOrSkip_empty]
            rfl
    | txt sv =>
      cases assoc with
      | none => exact ⟨lk, by simp [scanUStep, scanUDetachOrSkip, scanEventsFor]⟩
      | some p =>
        obtain ⟨ak, at2⟩ := p
        exact ⟨lk, by simp [scanUStep, scanUDetachOrSkip, scanEventsFor]⟩
    | cmt sv =>
      cases assoc with
      | none => exact ⟨lk, by simp [scanUStep, scanUDetachOrSkip, scanEventsFor]⟩
      | some p =>
        obtain ⟨ak, at2⟩ := p
        exact ⟨lk, by simp [scanUStep, scanUDetachOrSkip, scanEventsFor]⟩
  | txt nid s =>
    cases t with
    | txt sv => simp [codeCompatible] at h
    | el ttag => exact ⟨lk, by simp [scanUStep, scanUDetachOrSkip, scanEventsFor]⟩
    | cmt sv => exact ⟨lk, by simp [scanUStep, scanUDetachOrSkip, scanEventsFor]⟩
  | cmt nid s =>
    cases t with
    | cmt sv => simp [codeCompatible] at h
    | el ttag => exact ⟨lk, by simp [scanUStep, scanUDetachOrSkip, scanEventsFor]⟩
    | txt sv => exact ⟨lk, by simp [scanUStep, scanUDetachOrSkip, scanEventsFor]⟩

/-- Counterexample for C7: it is not the case that the scan matches the
first remaining real child with the same node type and (for elements)
tag name.  A keyed real element of the right tag standing first is not
matched: it is detached and the scan moves on. -/
theorem c7_counterexample :
    ¬ (∀ (t : UTarget) (children : List FChild) (i : Nat) (c : FChild),
        children[i]? = some c → claimCompatible t c = true →
        (∀ j c2, j < i → children[j]? = some c2 → claimCompatible t c2 = false) →
        (scanU [] [] t children JSKey.undef).2 =
          ScanOutcome.matched c (children.drop (i + 1))) := by
  intro h
  have := h (UTarget.el "DIV")
    [FChild.el 1 (some (some "@k", "DIV")), FChild.el 2 (some (none, "DIV"))]
    0 (FChild.el 1 (some (some "@k", "DIV"))) rfl (by decide)
    (fun j c2 hj _ => absurd hj (Nat.not_lt_zero j))
  exact absurd this (by decide)

/-- C7 (amended): with no preserved keys in play, the unkeyed scan
matches the first remaining real child that is code-compatible with
the target (same node type; for element candidates, marko-managed,
unkeyed, same tag name); every earlier candidate is detached, except
component roots, which are skipped and destroyed exactly when their id
is absent from the rendered-components map, and foreign elements,
which are skipped; exhaustion appends the target as a new node.  In
particular, replacing a div child by a span target detaches the old
div (to be destroyed by the final pass) and appends a new span. -/
theorem c7_unkeyed_scan (zMap : List Nat) (t : UTarget) (children : List FChild)
    (lastKey : JSKey) :
    (scanU zMap [] t children lastKey =
      (match splitFirstCompat t children with
       | some r => (r.1.flatMap (scanEventsFor zMap t), ScanOutcome.matched r.2.1 r.2.2)
       | none => (children.flatMap (scanEventsFor zMap t), ScanOutcome.appendNew))) ∧
    scanU [] [] (UTarget.el "SPAN") [FChild.el 1 (some (none, "DIV"))] JSKey.undef =
      ([ScanEvent.detach 1], ScanOutcome.appendNew) := by
  refine ⟨?_, by decide⟩
  induction children generalizing lastKey with
  | nil => rfl
  | cons c rest ih =>
    by_cases hc : codeCompatible t c = true
    · rw [scanU, scanUStep_empty_compat lastKey hc, splitFirstCompat, if_pos hc]
      simp
    · have hc2 : codeCompatible t c = false := by simpa using hc
      obtain ⟨lk2, hstep⟩ := @scanUStep_empty_incompat zMap _ _ lastKey hc2
      rw [scanU, hstep, splitFirstCompat, if_neg hc]
      simp only [ih lk2]
      cases hs : splitFirstCompat t rest <;> simp [hs]

/-!
The idempotence analysis: a real tree produced by a reconciliation pass
against a target tree T (captured by the realisation predicate
`realL`), morphed again against a structurally identical tree, issues
no insertBefore / removeChild / setAttribute / nodeValue mutation. -/

/-- The DOM mutations counted by the idempotence property:
insertBefore, removeChild, setAttribute, nodeValue writes.
(removeAttribute calls are re-issued for attributes whose value is
null/undefined/false — see the counterexample — and DOM-property
writes are not attribute mutations.) -/
def countedMut : Mut → Bool
  | .insertB _ => true
  | .removeC _ => true
  | .setA _ _ _ => true
  | .nodeVal _ _ => true
  | _ => false

/-- Extensional equality of two attribute maps, decided by comparing
lookups of every key occurring on either side. -/
def attrsMapEqB (a b : List (String × AttrValue)) : Bool :=
  a.all (fun p => b.lookup p.1 == a.lookup p.1) &&
  b.all (fun p => a.lookup p.1 == b.lookup p.1)

theorem attrsMapEqB_lookup {a b : List (String × AttrValue)}
    (h : attrsMapEqB a b = true) (name : String) :
    a.lookup name = b.lookup name := by
  unfold attrsMapEqB at h
  rw [Bool.and_eq_true, List.all_eq_true, List.all_eq_true] at h
  cases ha : a.lookup name with
  | some v =>
    have h2 := h.1 _ (lookup_some_mem ha)
    rw [beq_iff_eq] at h2
    rw [ha] at h2
    exact h2.symm
  | none =>
    cases hb : b.lookup name with
    | none => rfl
    | some w =>
      have h2 := h.2 _ (lookup_some_mem hb)
      rw [beq_iff_eq] at h2
      rw [ha, hb] at h2
      exact h2

mutual

/-- Structural identity of virtual trees as the claim defines it: same
node kinds, tag names, keys, attribute maps (extensionally) and text
values.  Object identities, constant-id tokens and flags are not part
of the structural identity. -/
def veq (a b : VNode) : Bool :=
  match a, b with
  | .el v cs, .el w ds =>
    v.tag == w.tag && v.key == w.key && attrsMapEqB v.attrs.map w.attrs.map && veqList cs ds
  | .txt s, .txt s2 => s == s2
  | .cmt s, .cmt s2 => s == s2
  | _, _ => false

def veqList (as2 bs : List VNode) : Bool :=
  match as2, bs with
  | [], [] => true
  | a :: as3, b :: bs2 => veq a b && veqList as3 bs2
  | _, _ => false

end

/-- Tag names whose elements have a special element handler. -/
def specialTag (tag : String) : Bool :=
  tag = "OPTION" || tag = "INPUT" || tag = "TEXTAREA" || tag = "SELECT"

mutual

/-- Scope conditions on the new target tree for the idempotence
theorem: no form-control tags (their special handlers synchronise DOM
properties and boolean attributes outside this analysis), no preserve
flags and no preserved-body keys (a skipped subtree would not consume
its keys from the scope's shared KeySequence), no constant-id tokens
(an equal token would likewise skip the subtree's key resolution),
duplicate-free attribute maps without xlink entries (the xlink
redirection makes its setAttributeNS re-issue on every pass). -/
def wfv (a : VNode) : Bool :=
  match a with
  | .el v cs =>
    !(specialTag v.tag) && (v.flags &&& FLAG_PRESERVE == 0) && v.constId == none &&
    decide ((v.attrs.map.map Prod.fst).Nodup) &&
    v.attrs.map.all (fun p => p.1 != ATTR_XLINK_HREF) && wfvList cs
  | _ => true

def wfvList (as2 : List VNode) : Bool :=
  match as2 with
  | [] => true
  | a :: as3 => wfv a && wfvList as3

end

mutual

/-- The realisation predicate: `realN r t ks = some ks2` states that
the real node `r` is what a reconciliation pass (with the scope's
KeySequence in state `ks`) leaves behind for the target node `t` — the
association `vElementByDOMNode` is `t`'s element data itself, the
stored key is the resolved key when the key is truthy, text/comment
values agree, and the children are realised against `t`'s children
with the key sequence threading through in traversal order (`ks2` is
the state after the subtree). -/
def realN (r : RNode) (t : VNode) (ks : KS) : Option KS :=
  match r, t with
  | RNode.el _ assoc sk rch, VNode.el v cs =>
    if jsTruthyKey v.key then
      let kr := keySequenceNextKey ks (v.key.getD "")
      if assoc == v && sk == some kr.1 then realL rch cs kr.2 else none
    else
      if assoc == v && sk == none then realL rch cs ks else none
  | RNode.txt _ s, VNode.txt sv => if s == sv then some ks else none
  | RNode.cmt _ s, VNode.cmt sv => if s == sv then some ks else none
  | _, _ => none

def realL (rs : List RNode) (ts : List VNode) (ks : KS) : Option KS :=
  match rs, ts with
  | [], [] => some ks
  | [], _ :: _ => none
  | _ :: _, [] => none
  | r :: rs2, t :: ts2 =>
    match realN r t ks with
    | some ks2 => realL rs2 ts2 ks2
    | none => none

end

/-- With extensionally equal attribute maps (the new one
duplicate-free and xlink-free), morphAttrs issues no counted mutation:
no path emits insertBefore/removeChild/nodeValue, property writes are
uncounted, removals are uncounted, and no setAttribute fires because
every retained new value equals the old value under the same name. -/
theorem morphAttrs_mapEq_counted_free (vFrom toEl : VEl)
    (hmap : ∀ name, vFrom.attrs.map.lookup name = toEl.attrs.map.lookup name)
    (hnd : (toEl.attrs.map.map Prod.fst).Nodup)
    (hx : ∀ p ∈ toEl.attrs.map, p.1 ≠ ATTR_XLINK_HREF) :
    ∀ m ∈ morphAttrs vFrom toEl, countedMut m = false := by
  intro m hm
  rcases morphAttrs_cases vFrom toEl with hc | hc | hc | hc
  · rw [hc] at hm
    rcases List.mem_map.mp hm with ⟨p, _, rfl⟩
    rfl
  · rw [hc] at hm
    simp at hm
  · rw [hc] at hm
    unfold simpleAttrsPath at hm
    rcases List.mem_append.mp hm with h1 | h2
    · rcases List.mem_append.mp h1 with h3 | h4
      · split at h3
        · rw [List.mem_singleton.mp h3]; rfl
        · simp at h3
      · split at h4
        · rw [List.mem_singleton.mp h4]; rfl
        · simp at h4
    · split at h2
      · rw [List.mem_singleton.mp h2]; rfl
      · simp at h2
  · rw [hc] at hm
    rcases List.mem_append.mp hm with hnew | hrest
    · rcases attrNewLoop_shape hnew with ⟨p, hp, hcase⟩
      rcases hcase with ⟨_, rfl⟩ | ⟨hr, hne, rfl⟩
      · rfl
      · exfalso
        obtain ⟨pn, pv⟩ := p
        have hxp : pn ≠ ATTR_XLINK_HREF := hx (pn, pv) hp
        have htg : attrTarget pn = (none, pn) := by
          unfold attrTarget
          rw [if_neg hxp]
        rw [htg] at hne
        have hlk : toEl.attrs.map.lookup pn = some pv := mem_lookup_of_nodupKeys hnd hp
        exact hne (by rw [hmap pn, hlk])
    · split at hrest
      · rcases List.mem_flatMap.mp hrest with ⟨p, hp, hmf⟩
        split at hmf
        · split at hmf
          · rw [List.mem_singleton.mp hmf]; rfl
          · rw [List.mem_singleton.mp hmf]; rfl
        · simp at hmf
      · simp at hrest

theorem specialTag_ne_textarea {tag : String} (h : specialTag tag = false) :
    tag ≠ "TEXTAREA" := by
  unfold specialTag at h
  intro he
  rw [he] at h
  simp at h

theorem specialElHandlerMuts_eq_nil {tag : String} (h : specialTag tag = false) :
    specialElHandlerMuts tag = [] := by
  unfold specialElHandlerMuts
  unfold specialTag at h
  rw [h]
  rfl

theorem hasFlag_preserve_false {flags : Nat} (h : (flags &&& FLAG_PRESERVE == 0) = true) :
    hasFlag flags FLAG_PRESERVE = false := by
  unfold hasFlag
  rw [beq_iff_eq] at h
  rw [h]
  rfl

theorem tailF_nil (st : MState) : tailF [] st = ([], st, []) := rfl

/-- The key lemma for the amended idempotence claim: morphing a
realised sibling list against a structurally identical, well-formed
target list consumes the whole list in the fast paths — every cursor
node matches — leaving no relocation, no insertion, no detach: the
marks, the queue and the keyed table see no change, the key sequence
ends in the same state as the realisation threading, and no counted
mutation is issued. -/
theorem morphListF_realized (ctx : MCtx) (ts' ts : List VNode)
    (rs processed : List RNode) (st : MState) (ks2 : KS)
    (hy : ctx.preservedBodyKeys = [])
    (hreal : realL rs ts st.ks = some ks2)
    (hveq : veqList ts ts' = true)
    (hwf : wfvList ts' = true) :
    ∃ rs2 st2 muts,
      morphListF ctx ts' processed rs st = ⟨processed ++ rs2, [], st2, muts⟩ ∧
      st2.ks = ks2 ∧ st2.marks = st.marks ∧ st2.queue = st.queue ∧
      (∀ m ∈ muts, countedMut m = false) := by
  cases ts with
  | nil =>
    cases rs with
    | cons r rr => simp [realL] at hreal
    | nil =>
      simp only [realL, Option.some.injEq] at hreal
      cases ts' with
      | cons t' tr' => simp [veqList] at hveq
      | nil =>
        refine ⟨[], st, [], ?_, hreal, rfl, rfl, by simp⟩
        rw [morphListF]
        simp
  | cons t tr =>
    cases rs with
    | nil => simp [realL] at hreal
    | cons r rr =>
      simp only [realL] at hreal
      cases hN : realN r t st.ks with
      | none => rw [hN] at hreal; simp at hreal
      | some ks3 =>
        rw [hN] at hreal
        cases ts' with
        | nil => cases t <;> simp [veqList] at hveq
        | cons t' tr' =>
          simp only [veqList, Bool.and_eq_true] at hveq
          obtain ⟨hveq1, hveq2⟩ := hveq
          simp only [wfvList, Bool.and_eq_true] at hwf
          obtain ⟨hwf1, hwf2⟩ := hwf
          cases t with
          | txt sv =>
            cases r with
            | el nid2 a2 k2 c2 => simp [realN] at hN
            | cmt nid2 s2 => simp [realN] at hN
            | txt nid s =>
              simp only [realN] at hN
              split at hN
              next hss =>
                rw [beq_iff_eq] at hss
                subst hss
                injection hN with hN
                cases t' with
                | el v' cs' => simp [veq] at hveq1
                | cmt sv2 => simp [veq] at hveq1
                | txt sv2 =>
                  have hsv : s = sv2 := by simpa [veq] using hveq1
                  subst hsv
                  have hscan : scanF ctx (VNode.txt s) (RNode.txt nid s :: rr) st =
                      ⟨[], some (RNode.txt nid s, rr), st, []⟩ := by
                    rw [scanF]
                  have hw : (if s ≠ s then [Mut.nodeVal nid s] else []) = [] := by simp
                  obtain ⟨rs2r, st2r, mutsr, heqr, hksr, hmr, hqr, hcntr⟩ :=
                    morphListF_realized ctx tr' tr rr
                      (processed ++ [] ++ [RNode.txt nid s]) st ks2 hy (hN ▸ hreal)
                      hveq2 hwf2
                  refine ⟨RNode.txt nid s :: rs2r, st2r, mutsr, ?_, hksr, hmr, hqr, hcntr⟩
                  rw [morphListF]
                  simp only [hscan, hw]
                  rw [heqr]
                  simp
              next => simp at hN
          | cmt sv =>
            cases r with
            | el nid2 a2 k2 c2 => simp [realN] at hN
            | txt nid2 s2 => simp [realN] at hN
            | cmt nid s =>
              simp only [realN] at hN
              split at hN
              next hss =>
                rw [beq_iff_eq] at hss
                subst hss
                injection hN with hN
                cases t' with
                | el v' cs' => simp [veq] at hveq1
                | txt sv2 => simp [veq] at hveq1
                | cmt sv2 =>
                  have hsv : s = sv2 := by simpa [veq] using hveq1
                  subst hsv
                  have hscan : scanF ctx (VNode.cmt s) (RNode.cmt nid s :: rr) st =
                      ⟨[], some (RNode.cmt nid s, rr), st, []⟩ := by
                    rw [scanF]
                  have hw : (if s ≠ s then [Mut.nodeVal nid s] else []) = [] := by simp
                  obtain ⟨rs2r, st2r, mutsr, heqr, hksr, hmr, hqr, hcntr⟩ :=
                    morphListF_realized ctx tr' tr rr
                      (processed ++ [] ++ [RNode.cmt nid s]) st ks2 hy (hN ▸ hreal)
                      hveq2 hwf2
                  refine ⟨RNode.cmt nid s :: rs2r, st2r, mutsr, ?_, hksr, hmr, hqr, hcntr⟩
                  rw [morphListF]
                  simp only [hscan, hw]
                  rw [heqr]
                  simp
              next => simp at hN
          | el v cs =>
            cases r with
            | txt nid2 s2 => simp [realN] at hN
            | cmt nid2 s2 => simp [realN] at hN
            | el nid assoc sk rch =>
              cases t' with
              | txt sv2 => simp [veq] at hveq1
              | cmt sv2 => simp [veq] at hveq1
              | el v' cs' =>
                simp only [veq, Bool.and_eq_true, beq_iff_eq] at hveq1
                obtain ⟨⟨⟨htag, hkey⟩, hmapB⟩, hcs⟩ := hveq1
                simp only [wfv, Bool.and_eq_true] at hwf1
                obtain ⟨⟨⟨⟨⟨hspec, hpres⟩, hcid⟩, hnd⟩, hxl⟩, hwfcs⟩ := hwf1
                rw [Bool.not_eq_true'] at hspec
                rw [beq_iff_eq] at hcid
                rw [decide_eq_true_eq] at hnd
                have hxl2 : ∀ p ∈ v'.attrs.map, p.1 ≠ ATTR_XLINK_HREF := by
                  intro p hp
                  have := List.all_eq_true.mp hxl p hp
                  simpa using this
                simp only [realN] at hN
                by_cases hkt : jsTruthyKey v.key = true
                · rw [if_pos hkt] at hN
                  split at hN
                  next hcond =>
                    rw [Bool.and_eq_true, beq_iff_eq, beq_iff_eq] at hcond
                    obtain ⟨hassoc, hsk⟩ := hcond
                    have hktv : jsTruthyKey v'.key = true := by rw [← hkey]; exact hkt
                    have hamfree : ∀ m ∈ morphAttrs assoc v', countedMut m = false := by
                      apply morphAttrs_mapEq_counted_free
                      · intro name
                        rw [hassoc]
                        exact attrsMapEqB_lookup hmapB name
                      · exact hnd
                      · exact hxl2
                    have hpresF : hasFlag v'.flags FLAG_PRESERVE = false :=
                      hasFlag_preserve_false hpres
                    have hta : v'.tag ≠ "TEXTAREA" := specialTag_ne_textarea hspec
                    have hsp : specialElHandlerMuts v'.tag = [] :=
                      specialElHandlerMuts_eq_nil hspec
                    have hkr : keySequenceNextKey st.ks (v'.key.getD "") =
                        keySequenceNextKey st.ks (v.key.getD "") := by rw [hkey]
                    obtain ⟨rs2c, st2c, mutsc, heqc, hksc, hmc, hqc, hcntc⟩ :=
                      morphListF_realized ctx cs' cs rch [] { st with ks := (keySequenceNextKey st.ks (v.key.getD "")).2, lastFromKey := storedKeyJS (RNode.el nid assoc sk rch) } ks3 hy hN hcs hwfcs
                    obtain ⟨rs2r, st2r, mutsr, heqr, hksr, hmr, hqr, hcntr⟩ :=
                      morphListF_realized ctx tr' tr rr
                        (processed ++ [RNode.el nid v'
                          (some (keySequenceNextKey st.ks (v.key.getD "")).1) rs2c])
                        st2c ks2 hy (by rw [hksc]; exact hreal) hveq2 hwf2
                    refine ⟨RNode.el nid v'
                        (some (keySequenceNextKey st.ks (v.key.getD "")).1) rs2c :: rs2r,
                      st2r, (morphAttrs assoc v' ++ mutsc) ++ mutsr, ?_, hksr,
                      by rw [hmr, hmc], by rw [hqr, hqc], ?_⟩
                    · rw [morphListF]
                      rw [if_pos hktv]
                      have hcur : cursorKeyedElMatch (RNode.el nid assoc sk rch :: rr)
                          (keySequenceNextKey st.ks (v.key.getD "")).1 =
                          some (nid, assoc, rch, rr) := by
                        simp [cursorKeyedElMatch, hsk]
                      have hme : morphElF ctx nid assoc
                          (some (keySequenceNextKey st.ks (v.key.getD "")).1) rch v' cs'
                          (some (keySequenceNextKey st.ks (v.key.getD "")).1)
                          { st with ks := (keySequenceNextKey st.ks (v.key.getD "")).2, lastFromKey := storedKeyJS (RNode.el nid assoc sk rch) } =
                          (RNode.el nid v'
                            (some (keySequenceNextKey st.ks (v.key.getD "")).1) rs2c,
                            st2c, morphAttrs assoc v' ++ mutsc) := by
                        rw [morphElF]
                        rw [if_neg (by simp [hcid])]
                        rw [if_neg (by simp [hy])]
                        rw [if_pos hta]
                        rw [morphChildrenF, heqc, tailF_nil]
                        simp [hsp]
                      simp only [hkr, List.head?_cons, hcur, hpresF, Bool.false_eq_true,
                        if_false]
                      rw [if_pos (show assoc.tag = v'.tag by rw [hassoc]; exact htag)]
                      simp only [hme]
                      rw [heqr]
                      simp
                    · intro m hm
                      rcases List.mem_append.mp hm with h1 | h1
                      · rcases List.mem_append.mp h1 with h2 | h2
                        · exact hamfree m h2
                        · exact hcntc m h2
                      · exact hcntr m h1
                  next => simp at hN
                · rw [if_neg hkt] at hN
                  split at hN
                  next hcond =>
                    rw [Bool.and_eq_true, beq_iff_eq, beq_iff_eq] at hcond
                    obtain ⟨hassoc, hsk⟩ := hcond
                    have hktF : jsTruthyKey v.key = false := by simpa using hkt
                    have hktv : jsTruthyKey v'.key = false := by rw [← hkey]; exact hktF
                    have hamfree : ∀ m ∈ morphAttrs assoc v', countedMut m = false := by
                      apply morphAttrs_mapEq_counted_free
                      · intro name
                        rw [hassoc]
                        exact attrsMapEqB_lookup hmapB name
                      · exact hnd
                      · exact hxl2
                    have hta : v'.tag ≠ "TEXTAREA" := specialTag_ne_textarea hspec
                    have hsp : specialElHandlerMuts v'.tag = [] :=
                      specialElHandlerMuts_eq_nil hspec
                    subst hsk
                    have hscan : scanF ctx (VNode.el v' cs')
                        (RNode.el nid assoc none rch :: rr) st =
                        ⟨[], some (RNode.el nid assoc none rch, rr),
                          { st with lastFromKey := rawKeyJS (VNode.el assoc []) }, []⟩ := by
                      rw [scanF]
                      have hak : jsTruthyKey assoc.key = false := by
                        rw [hassoc]; exact hktF
                      simp only [hak, Bool.false_eq_true, if_false]
                      rw [if_pos (show assoc.tag = v'.tag by rw [hassoc]; exact htag)]
                      rfl
                    obtain ⟨rs2c, st2c, mutsc, heqc, hksc, hmc, hqc, hcntc⟩ :=
                      morphListF_realized ctx cs' cs rch []
                        { st with lastFromKey := rawKeyJS (VNode.el assoc []) }
                        ks3 hy hN hcs hwfcs
                    obtain ⟨rs2r, st2r, mutsr, heqr, hksr, hmr, hqr, hcntr⟩ :=
                      morphListF_realized ctx tr' tr rr
                        (processed ++ [] ++ [RNode.el nid v' none rs2c])
                        st2c ks2 hy (by rw [hksc]; exact hreal) hveq2 hwf2
                    refine ⟨RNode.el nid v' none rs2c :: rs2r,
                      st2r, (morphAttrs assoc v' ++ mutsc) ++ mutsr, ?_, hksr,
                      by rw [hmr, hmc], by rw [hqr, hqc], ?_⟩
                    · rw [morphListF]
                      rw [if_neg (by simp [hktv])]
                      have hme : morphElF ctx nid assoc none rch v' cs' v'.key
                          { st with lastFromKey := rawKeyJS (VNode.el assoc []) } =
                          (RNode.el nid v' none rs2c, st2c,
                            morphAttrs assoc v' ++ mutsc) := by
                        rw [morphElF]
                        rw [if_neg (by simp [hcid])]
                        rw [if_neg (by simp [hy])]
                        rw [if_pos hta]
                        rw [morphChildrenF, heqc, tailF_nil]
                        simp [hsp]
                      simp only [hscan, hme]
                      rw [heqr]
                      simp
                    · intro m hm
                      rcases List.mem_append.mp hm with h1 | h1
                      · rcases List.mem_append.mp h1 with h2 | h2
                        · exact hamfree m h2
                        · exact hcntc m h2
                      · exact hcntr m h1
                  next => simp at hN
termination_by vsizeList ts'
decreasing_by all_goals (subst_vars; first | (simp [vsize, vsizeList]; omega) | simp [vsize, vsizeList] | omega)

/-- First-pass target element for the C1 counterexample: a keyless div
whose attribute object (identity 1) carries the single falsy entry
`disabled: false`. -/
def vC1a : VEl := ⟨"DIV", none, ⟨1, [("disabled", AttrValue.bool false)]⟩, none, 0⟩

/-- The structurally identical element rendered by the second pass: a
fresh attribute object (identity 2) with the same attribute map. -/
def vC1b : VEl := ⟨"DIV", none, ⟨2, [("disabled", AttrValue.bool false)]⟩, none, 0⟩

/-- The real tree the first pass leaves behind for `vC1a`. -/
def rC1 : RNode := RNode.el 1 vC1a none []

def ctxC1 : MCtx := ⟨[], []⟩

/-- Counterexample for C1: `rC1` is exactly the realisation of the
first-pass target (the realisation predicate accepts it from the empty
key-sequence state), the second-pass target is structurally identical
(same node kind, tag, key, attribute map), yet re-running morphdom
issues a `removeAttribute("disabled")` call: the general attribute
diff re-issues the removal for every falsy-valued attribute on every
pass, whether or not the attribute is present, so the pass does not
perform zero DOM mutations. -/
theorem c1_counterexample :
    realL [rC1] [VNode.el vC1a []] [] = some [] ∧
    veqList [VNode.el vC1a []] [VNode.el vC1b []] = true ∧
    (morphdomF ctxC1 [] [rC1] [VNode.el vC1b []] 5).2.2 =
      [Mut.removeA none "disabled"] := by
  refine ⟨?_, ?_, ?_⟩
  · simp [realL, realN, rC1, vC1a, jsTruthyKey]
  · simp [veqList, veq, vC1a, vC1b, attrsMapEqB]
  · simp [morphdomF, morphChildrenF, morphListF, scanF, morphElF, tailF, finalizePass,
      morphAttrs, attrNewLoop, attrNewStep, attrOldLoop, attrTarget,
      removePreservedAttributes, simpleAttrsPath, assignProps, isRemovedValue,
      hasFlag, jsTruthyKey, ctxC1, rC1, vC1a, vC1b, ATTR_XLINK_HREF,
      FLAG_CUSTOM_ELEMENT, FLAG_SIMPLE_ATTRS, specialElHandlerMuts]

/-- C1 (amended): re-running the reconciler on a realised real tree
against a structurally identical target (same node kinds, tags, keys,
attribute maps and text values) issues no insertBefore, no
removeChild, no setAttribute and no nodeValue write — but it is not
mutation-free: removeAttribute calls are re-issued for every
falsy-valued attribute (see the counterexample), so only the other
four mutation kinds are absent.  Scope: no preserved-body keys in
play, and targets without preserve flags, constant-id tokens,
form-control special handlers, `xlink:href` entries or duplicate
attribute names. -/
theorem c1_idempotent_no_counted_mutation (ctx : MCtx) (keyed0 : List (String × Nat))
    (fromChildren : List RNode) (tsPrev ts' : List VNode) (nextId0 : Nat) (ks2 : KS)
    (hy : ctx.preservedBodyKeys = [])
    (hreal : realL fromChildren tsPrev [] = some ks2)
    (hveq : veqList tsPrev ts' = true)
    (hwf : wfvList ts' = true) :
    ((morphdomF ctx keyed0 fromChildren ts' nextId0).2.2.all
      (fun m => !countedMut m)) = true := by
  obtain ⟨rs2, st2, muts, heq, hks, hm, hq, hcnt⟩ :=
    morphListF_realized ctx ts' tsPrev fromChildren []
      ⟨[], keyed0, [], [], nextId0, JSKey.undef⟩ ks2 hy hreal hveq hwf
  have hmain : (morphdomF ctx keyed0 fromChildren ts' nextId0).2.2 = muts := by
    simp only [morphdomF, morphChildrenF, heq, tailF_nil, hq, finalizePass]
    simp
  apply List.all_eq_true.mpr
  intro m hm2
  rw [hmain] at hm2
  simp [hcnt m hm2]

theorem c1_idempotent_no_counted_mutation_witness :
    ((morphdomF ⟨[], []⟩ [] [RNode.txt 0 "a"] [VNode.txt "a"] 1).2.2.all
      (fun m => !countedMut m)) = true :=
  c1_idempotent_no_counted_mutation ⟨[], []⟩ [] [RNode.txt 0 "a"]
    [VNode.txt "a"] [VNode.txt "a"] 1 [] rfl
    (by simp [realL, realN]) (by simp [veqList, veq]) (by simp [wfvList, wfv])

end Marko
